import Mathlib

/-!
Verification development for the dnsss DNS server-selection engine.

The definitions below are a shallow embedding of the Python source:
`dnsss/models.py` (running estimators, domain rules, response models),
`dnsss/algs/base.py` (base state, resolver query loop, rule selection),
`dnsss/algs/bind.py`, `dnsss/algs/bmod.py`, `dnsss/algs/ar1.py`
(the three ranking algorithms), and `dnsss/backends.py` (backend error
mapping).

Modelling conventions:
* Python floats are modelled by exact rationals `ℚ`; machine rounding is
  outside the scope of the claims, which are about the algebra of the
  update rules.
* Python dicts keyed by server strings are modelled as association lists
  `List (Server × α)` with first-occurrence lookup; a lookup of a missing
  key (Python `KeyError`) and a division by zero (Python
  `ZeroDivisionError`) surface as `none` through `Option`.
* `math.sqrt` is modelled by `ratSqrt` below, which agrees with the real
  square root whenever the argument is a perfect square of a rational; no
  claim below depends on the value of a square root of a non-square.
-/

/-- Server identifier: a plain string, compared by exact match
(`type Server = str` in `models.py`). -/
abbrev Server := String

/-- Lookup of a key in a Python dict modelled as an association list:
returns the value at the first matching key, `none` when the key is absent
(which in Python raises `KeyError`). -/
def dictGet {α : Type} (k : Server) : List (Server × α) → Option α
  | [] => none
  | (k', v) :: rest => if k' = k then some v else dictGet k rest

/-- Assignment `d[k] = v` on a Python dict: replaces the value at the first
matching key in place, or appends the binding at the end when absent. -/
def dictSet {α : Type} (k : Server) (v : α) : List (Server × α) → List (Server × α)
  | [] => [(k, v)]
  | (k', v') :: rest => if k' = k then (k, v) :: rest else (k', v') :: dictSet k v rest

/-- Membership test `k in d` on a Python dict. -/
def dictHas {α : Type} (k : Server) (d : List (Server × α)) : Bool :=
  (dictGet k d).isSome

/-- Keys of a dict in insertion order (`list(d)` in Python). -/
def dictKeys {α : Type} (d : List (Server × α)) : List Server :=
  d.map (·.1)

/-- DNS response codes (`Rcode` in `models.py`). -/
inductive Rcode where
  | FORMERR | NOERROR | NOTAUTH | NOTIMP | NOTZONE | NXDOMAIN
  | NXRRSET | REFUSED | SERVFAIL | YXDOMAIN | YXRRSET
deriving DecidableEq

/-- Error name hints attached to SERVFAIL responses (`ErName` in `models.py`). -/
inductive ErName where
  | NoNameservers
  | Timeout
deriving DecidableEq

/-- Running mean estimator (`RunningMean` in `models.py`). -/
structure RunningMean where
  count : Nat := 0
  mean : ℚ := 0
deriving DecidableEq

/-- Source: `RunningMean.observe`:
`count += 1; mean += (value - mean) / count`. -/
def RunningMean.observe (s : RunningMean) (value : ℚ) : RunningMean :=
  { count := s.count + 1
    mean := s.mean + (value - s.mean) / ((s.count : ℚ) + 1) }

/-- Newton iteration for the integer square root, with explicit fuel so
that it reduces by structural recursion. -/
def natSqrtIter : Nat → Nat → Nat → Nat
  | 0, _, guess => guess
  | fuel + 1, n, guess =>
    let next := (guess + n / guess) / 2
    if next < guess then natSqrtIter fuel n next else guess

/-- Integer square root (rounded down), agreeing with `Nat.sqrt`. -/
def natSqrt (n : Nat) : Nat :=
  if n ≤ 1 then n else natSqrtIter n n (n / 2)

/-- Stand-in for `math.sqrt` on rationals: the rounded-down square roots of
numerator and denominator, exact whenever the argument is a perfect square
of a rational (in particular on `0`, the only case whose value the claims
exercise). -/
def ratSqrt (q : ℚ) : ℚ := mkRat (natSqrt q.num.toNat) (natSqrt q.den)

/-- Welford running variance estimator (`RunningVariance` in `models.py`). -/
structure RunningVariance extends RunningMean where
  delta_m2 : ℚ := 0
  variance : ℚ := 0
  stdev : ℚ := 0
deriving DecidableEq

/-- Source: `RunningVariance.observe` (Welford's online algorithm). The
source stores `stdev = math.sqrt(variance)`; here `ratSqrt` stands for the
square root (exact on perfect squares, in particular on `0`). -/
def RunningVariance.observe (s : RunningVariance) (value : ℚ) : RunningVariance :=
  let delta1 := value - s.mean
  let rm := s.toRunningMean.observe value
  let delta2 := value - rm.mean
  let delta_m2 := s.delta_m2 + delta1 * delta2
  if rm.count > 1 then
    let variance := delta_m2 / ((rm.count : ℚ) - 1)
    { toRunningMean := rm, delta_m2 := delta_m2, variance := variance
      stdev := ratSqrt variance }
  else
    { toRunningMean := rm, delta_m2 := delta_m2
      variance := s.variance, stdev := s.stdev }

/-- Parameters of the BIND algorithm (`bind.Params`): `a = 0.7`, `g = 0.98`. -/
structure BindParams where
  a : ℚ := 7/10
  g : ℚ := 49/50
deriving DecidableEq

/-- Parameters of the AR-1 algorithm (`ar1.Params`, extending `bind.Params`). -/
structure AR1Params extends BindParams where
  p_count_min : Nat := 4
  alpha_min : ℚ := 1/10
  alpha_max : ℚ := 9/10
  idle_max : Nat := 100
  drc_count_min : Nat := 50
  drc_consec : Nat := 5
  drc_stdev_co : Nat := 2
deriving DecidableEq

/-- Per-server AR statistics (`ar1.ARStats`, extending `RunningVariance`).
The `params` field mirrors the reference each `ARStats` holds to the
algorithm parameters (excluded from serialization in the source). -/
structure ARStats extends RunningVariance where
  P : ℚ := 0
  alpha : ℚ := 0
  latest : ℚ := 0
  mean_xy : ℚ := 0
  mean_v2 : ℚ := 0
  idle : Nat := 0
  drc : Nat := 0
  params : AR1Params := {}
deriving DecidableEq

/-- Source: `ARStats.reset`: reassigns every serialized field to its
default (keeping `params`, which is excluded from dumps), then sets
`alpha = alpha_min`. -/
def ARStats.reset (s : ARStats) : ARStats :=
  { params := s.params, alpha := s.params.alpha_min }

/-- Source: the deviation-reset-counter section at the top of
`ARStats.observe` (factored out as a helper): compare the new rtime
against the stored mean and stdev from the previous update, bump or clear
`drc`, and fully reset the stats when the consecutive-deviance and
sample-size thresholds are both met. -/
def ARStats.drcCheck (s0 : ARStats) (rtime : ℚ) : ARStats :=
  let params := s0.params
  if s0.count ≠ 0 then
    let s1 :=
      if |rtime - s0.mean| > s0.stdev * (params.drc_stdev_co : ℚ) then
        { s0 with drc := s0.drc + 1 }
      else
        { s0 with drc := 0 }
    if s1.drc ≥ params.drc_consec ∧ s1.count ≥ params.drc_count_min then
      s1.reset
    else s1
  else s0

/-- Source: `ARStats.observe`. Deviation-reset counter first (via
`drcCheck`), then the Welford update, then the `mean_v2` / `mean_xy`
accumulators and the clamped `alpha`. The division
`(mean_xy - mean²) / (mean_v2 - mean²)` is unguarded in the source; a zero
denominator raises `ZeroDivisionError`, modelled by `none`. -/
def ARStats.observe (s0 : ARStats) (rtime : ℚ) : Option ARStats :=
  let params := s0.params
  let s := s0.drcCheck rtime
  let s : ARStats := { s with toRunningVariance := s.toRunningVariance.observe rtime }
  let s : ARStats := { s with mean_v2 := s.mean_v2 + (rtime ^ 2 - s.mean_v2) / (s.count : ℚ) }
  if s.count > 1 then
    let s : ARStats := { s with mean_xy := s.mean_xy + s.latest * rtime / ((s.count : ℚ) - 1) }
    let mean2 := s.mean ^ 2
    if s.mean_v2 - mean2 = 0 then
      none
    else
      let alpha := (s.mean_xy - mean2) / (s.mean_v2 - mean2)
      let alpha := max params.alpha_min (min params.alpha_max alpha)
      some { s with alpha := alpha, latest := rtime, idle := 0 }
  else
    some { s with latest := rtime, idle := 0 }

/-- Source: `ARStats.predict`: `atok = alpha ** (idle + 1);
P = atok * latest + (1 - atok) * mean`. -/
def ARStats.predict (s : ARStats) : ARStats :=
  let atok := s.alpha ^ (s.idle + 1)
  { s with P := atok * s.latest + (1 - atok) * s.mean }

/-- Base algorithm state (`base.State`, a `RunningMean` over all observed
response times plus the per-server running means `SM`). The empty `Params`
of the base algorithm is omitted. -/
structure BaseState extends RunningMean where
  SM : List (Server × RunningMean) := []
deriving DecidableEq

/-- Source: `base.State.add`: initialize `SM[server]` when absent. -/
def BaseState.add (st : BaseState) (server : Server) : BaseState :=
  if dictHas server st.SM then st else { st with SM := st.SM ++ [(server, {})] }

/-- Source: `base.State.observe`: `SM[server].observe(rtime)` (a missing
server raises `KeyError`, modelled by `none`) followed by the global
`RunningMean` update. The `code` and candidate list are unused here but
kept for signature fidelity. -/
def BaseState.observe (st : BaseState) (server : Server) (rtime : ℚ)
    (_code : Rcode) (_servers : List Server) : Option BaseState :=
  (dictGet server st.SM).map fun m =>
    { toRunningMean := st.toRunningMean.observe rtime
      SM := dictSet server (m.observe rtime) st.SM }

/-- BIND algorithm state (`bind.State`): adds the per-server `SR` values. -/
structure BindState extends BaseState where
  SR : List (Server × ℚ) := []
  params : BindParams := {}
deriving DecidableEq

/-- Source: `bind.State.add`: base `add` plus `SR[server] = 0.0` when absent. -/
def BindState.add (st : BindState) (server : Server) : BindState :=
  let st := { st with toBaseState := st.toBaseState.add server }
  if dictHas server st.SR then st else { st with SR := st.SR ++ [(server, 0)] }

/-- Single step of the `for Si in servers` loop of `bind.State.observe`:
for the selected server `a = Ri and params.a` (Python truthiness: `0.0`
propagates), `r = a*Ri + (1-a)*rtime`; for every other candidate
`r = g * Ri`. -/
def bindSRstep (a g : ℚ) (server : Server) (rtime : ℚ)
    (SR : List (Server × ℚ)) (Si : Server) : Option (List (Server × ℚ)) :=
  (dictGet Si SR).map fun Ri =>
    if Si = server then
      let a' := if Ri = 0 then 0 else a
      dictSet Si (a' * Ri + (1 - a') * rtime) SR
    else
      dictSet Si (g * Ri) SR

/-- The whole `for Si in servers` loop of `bind.State.observe`. -/
def bindSRloop (a g : ℚ) (server : Server) (rtime : ℚ)
    (servers : List Server) (SR : List (Server × ℚ)) : Option (List (Server × ℚ)) :=
  servers.foldlM (bindSRstep a g server rtime) SR

/-- Source: `bind.State.observe`: the base observation followed by the `SR`
update loop over the candidate list. -/
def BindState.observe (st : BindState) (server : Server) (rtime : ℚ)
    (code : Rcode) (servers : List Server) : Option BindState := do
  let base ← st.toBaseState.observe server rtime code servers
  let SR ← bindSRloop st.params.a st.params.g server rtime servers st.SR
  pure { toBaseState := base, SR := SR, params := st.params }

/-- Source: `bind.State.rank`: rank by least `SR` value. -/
def BindState.rank (st : BindState) (server : Server) : Option ℚ :=
  dictGet server st.SR

/-- BMOD algorithm state (`bmod.State`): adds `SRM`, an `SR`-like value that
is never discounted. -/
structure BmodState extends BindState where
  SRM : List (Server × ℚ) := []
deriving DecidableEq

/-- Source: `bmod.State.add`: BIND `add` plus `SRM[server] = 0.0` when absent. -/
def BmodState.add (st : BmodState) (server : Server) : BmodState :=
  let st := { st with toBindState := st.toBindState.add server }
  if dictHas server st.SRM then st else { st with SRM := st.SRM ++ [(server, 0)] }

/-- Source: `bmod.State.observe`: the BIND observation, then
`a = SRM[server] and params.a; SRM[server] = a*SRM[server] + (1-a)*rtime;
SR[server] = max(SR[server], SRM[server])`. -/
def BmodState.observe (st : BmodState) (server : Server) (rtime : ℚ)
    (code : Rcode) (servers : List Server) : Option BmodState := do
  let b ← st.toBindState.observe server rtime code servers
  let RM ← dictGet server st.SRM
  let a' := if RM = 0 then (0 : ℚ) else st.params.a
  let RM' := a' * RM + (1 - a') * rtime
  let Rsel ← dictGet server b.SR
  pure { toBindState := { b with SR := dictSet server (max Rsel RM') b.SR }
         SRM := dictSet server RM' st.SRM }

/-- AR-1 algorithm state (`ar1.State`, extending `bind.State` in the
source). The inheritance chain is flattened here because the `params` field
is narrowed to `ar1.Params`; the BIND-level behaviour is reused through
`bindSRloop`. -/
structure AR1State where
  count : Nat := 0
  mean : ℚ := 0
  SM : List (Server × RunningMean) := []
  SR : List (Server × ℚ) := []
  SAR : List (Server × ARStats) := []
  params : AR1Params := {}
deriving DecidableEq

/-- Source: `ar1.State.add`: BIND `add`, then either rebind the params of an
existing `ARStats` or create a fresh one and `reset` it (so the fresh entry
carries `alpha = alpha_min`). -/
def AR1State.add (st : AR1State) (server : Server) : AR1State :=
  let SM := if dictHas server st.SM then st.SM else st.SM ++ [(server, ({} : RunningMean))]
  let SR := if dictHas server st.SR then st.SR else st.SR ++ [(server, 0)]
  let SAR :=
    match dictGet server st.SAR with
    | some ARi => dictSet server { ARi with params := st.params } st.SAR
    | none => st.SAR ++ [(server, ARStats.reset { params := st.params })]
  { st with SM := SM, SR := SR, SAR := SAR }

/-- Single step of the `for Si in servers` loop of `ar1.State.observe`: the
selected server gets a full `ARStats.observe`, every other candidate gets
`idle += 1`; then `predict` runs for any candidate with
`count >= p_count_min`. -/
def sarStep (params : AR1Params) (server : Server) (rtime : ℚ)
    (SAR : List (Server × ARStats)) (Si : Server) : Option (List (Server × ARStats)) := do
  let ARi ← dictGet Si SAR
  let ARi ←
    if Si = server then ARi.observe rtime
    else some { ARi with idle := ARi.idle + 1 }
  let ARi := if ARi.count ≥ params.p_count_min then ARi.predict else ARi
  pure (dictSet Si ARi SAR)

/-- The whole `for Si in servers` loop of `ar1.State.observe`. -/
def sarLoop (params : AR1Params) (server : Server) (rtime : ℚ)
    (servers : List Server) (SAR : List (Server × ARStats)) :
    Option (List (Server × ARStats)) :=
  servers.foldlM (sarStep params server rtime) SAR

/-- Source: `ar1.State.observe`: the inherited BIND observation (base `SM`
and global mean update, then the `SR` loop), followed by the `SAR` loop. -/
def AR1State.observe (st : AR1State) (server : Server) (rtime : ℚ)
    (_code : Rcode) (servers : List Server) : Option AR1State := do
  let m ← dictGet server st.SM
  let SM := dictSet server (m.observe rtime) st.SM
  let SR ← bindSRloop st.params.a st.params.g server rtime servers st.SR
  let SAR ← sarLoop st.params server rtime servers st.SAR
  pure { st with
         count := st.count + 1
         mean := st.mean + (rtime - st.mean) / ((st.count : ℚ) + 1)
         SM := SM, SR := SR, SAR := SAR }

/-- Source: `ar1.State.rank`:
`AR.idle > idle_max and -float(AR.idle) or AR.P or super().rank(server)`,
written out with Python truthiness (`0` is falsy, so each `or` falls
through on a zero value). A missing server raises `KeyError` (`none`). -/
def AR1State.rank (st : AR1State) (server : Server) : Option ℚ :=
  match dictGet server st.SAR with
  | none => none
  | some AR =>
    if AR.idle > st.params.idle_max ∧ (-(AR.idle : ℚ)) ≠ 0 then
      some (-(AR.idle : ℚ))
    else if AR.P ≠ 0 then
      some AR.P
    else
      dictGet server st.SR

/-- Backend response model (`BackendResponse` in `models.py`). The `id`
field defaults to a random 16-bit value in the source; `none` stands for
"left to the random default". -/
structure BackendResponse where
  id : Option Nat := none
  code : Rcode := Rcode.NOERROR
  flags : Nat := 0
  rrset : List String := []
  arset : List String := []
  auset : List String := []
  rtime : ℚ := 0
  ername : Option ErName := none
deriving DecidableEq

/-- Environment of `base.Resolver.query`, abstracting over the pieces the
retry loop is polymorphic in: the algorithm state type with its `observe`,
the `ranked` ordering (which shuffles and sorts in the source), the retry
budget, and the backend, modelled as a total function from the overall
call index and server to a response (the claim's premise that every
backend call returns a response). Timeout/delay bookkeeping only shapes
`rtime` values and is irrelevant to the loop structure. -/
structure QueryEnv (σ : Type) where
  retries_max : Nat
  ranked : σ → List Server → List Server
  observe : σ → Server → ℚ → Rcode → List Server → σ
  backend : Nat → Server → BackendResponse

/-- Inner `for server in servers` loop of `base.Resolver.query`: call the
backend, observe the result, then either append to `failed` and continue
(SERVFAIL with retry budget left) or break with the response. Returns the
break value (if any), the state, the failed list and the call count. -/
def innerLoop {σ : Type} (env : QueryEnv σ) (rankedList : List Server) :
    σ → List Server → List Server → Nat →
    Option (BackendResponse × Server) × σ × List Server × Nat
  | st, [], failed, calls => (none, st, failed, calls)
  | st, server :: rest, failed, calls =>
    let rep := env.backend calls server
    let st' := env.observe st server rep.rtime rep.code rankedList
    if rep.code = Rcode.SERVFAIL ∧ failed.length < env.retries_max then
      innerLoop env rankedList st' rest (failed ++ [server]) (calls + 1)
    else
      (some (rep, server), st', failed, calls + 1)

/-- Outer `while True` loop of `base.Resolver.query`, with explicit fuel.
An empty ranked list raises `ValueError` in the source (`none` here); a
`none` from exhausted fuel never occurs with fuel `retries_max + 1`, as
proved below. -/
def queryLoop {σ : Type} (env : QueryEnv σ) :
    Nat → σ → List Server → List Server → Nat →
    Option (BackendResponse × Server × σ × List Server × Nat)
  | 0, _, _, _, _ => none
  | fuel + 1, st, servers, failed, calls =>
    let rankedList := env.ranked st servers
    if rankedList = [] then none
    else
      match innerLoop env rankedList st rankedList failed calls with
      | (some (rep, server), st', failed', calls') =>
        some (rep, server, st', failed', calls')
      | (none, st', failed', calls') =>
        queryLoop env fuel st' rankedList failed' calls'

/-- Source: `base.Resolver.query` (retry loop only; the `Response` is the
final break value together with the `failed` list). -/
def query {σ : Type} (env : QueryEnv σ) (st : σ) (servers : List Server) :
    Option (BackendResponse × Server × σ × List Server × Nat) :=
  queryLoop env (env.retries_max + 1) st servers [] 0

/-- One alternative `^(.+\.)?(d)\.?$` of the pattern compiled by
`DomainRule.buildpat`, as a predicate on lists of characters: the qname
equals the domain, optionally with one trailing dot, or ends with a dot
followed by the domain (optional trailing dot), with at least one
character before that dot (`.+` is nonempty). Faithful for newline-free
qnames (`.` does not match a newline and `$` also matches before a final
newline in Python). -/
def patMatchOne (d q : List Char) : Bool :=
  (q == d) || (q == d ++ ['.']) ||
  (List.isSuffixOf ('.' :: d) q && decide (d.length + 2 ≤ q.length)) ||
  (List.isSuffixOf ('.' :: (d ++ ['.'])) q && decide (d.length + 3 ≤ q.length))

/-- Case folding used by the rule patterns (`re.I`, with rule domains
lowercased by the `Domain` validator): the qname's characters lowercased
(ASCII range, as `Char.toLower` maps exactly A–Z). -/
def pyLower (s : String) : List Char := s.data.map Char.toLower

/-- Domain forwarding rule (`DomainRule` in `models.py`). The `domain` and
`exclude` entries are assumed already normalized by the `Domain` validator
(`strip('.').lower()`), as they are after model construction. -/
structure DomainRule where
  domain : String
  exclude : List String := []
  servers : List Server
  tag : Option String := none
deriving DecidableEq

/-- Source: `DomainRule.matches`: the inclusion pattern matches the qname
and the exclusion pattern (an alternation over `exclude`, never matching
when `exclude` is empty) does not. Case-insensitivity (`re.I`) is modelled
by lowercasing both sides. -/
def DomainRule.matches (r : DomainRule) (qname : String) : Bool :=
  let q := pyLower qname
  patMatchOne (pyLower r.domain) q &&
    !(r.exclude.any fun d => patMatchOne (pyLower d) q)

/-- Resolver configuration (`base.Config`): the default server list and the
forwarding rules. -/
structure ResolverConfig where
  servers : List Server
  rules : List DomainRule := []
deriving DecidableEq

/-- Source: the `AfterValidator(lambda x: tuple(sorted(x)))` on
`Config.rules`; `DomainRule` orders by `order = -len(domain)`, so the
stable sort puts longer (more specific) domains first. -/
def sortRules (rules : List DomainRule) : List DomainRule :=
  List.insertionSort (fun r1 r2 => r2.domain.length ≤ r1.domain.length) rules

/-- Construction of a `Config` from unsorted rules, applying the rule sort
performed at validation time. -/
def mkConfig (servers : List Server) (rules : List DomainRule) : ResolverConfig :=
  { servers := servers, rules := sortRules rules }

/-- Source: `base.Resolver.select`: first rule (in sorted order) whose
`matches(qname)` holds contributes `(rule.servers, rule.tag)`; otherwise
the config default servers with tag `DFLT`. -/
def ResolverConfig.select (cfg : ResolverConfig) (qname : String) :
    List Server × Option String :=
  match cfg.rules.find? (fun r => r.matches qname) with
  | some r => (r.servers, r.tag)
  | none => (cfg.servers, some "DFLT")

/-- Outcome of the external `backend.resolve(...)` call inside
`backends.dnspython_backend`: either an answer or one of the exception
kinds distinguished by the `except` clauses, plus `otherRaise` for any
exception outside the handled set (which Python propagates). For
`nxdomain`, each response message contributes `(id, additional,
authority)`. -/
inductive ResolveOutcome where
  | answer (id : Nat) (flags : Nat) (code : Rcode)
      (cnames rrset arset auset : List String)
  | noMetaqueries
  | yxdomain
  | nxdomain (msgs : List (Nat × List String × List String))
  | noNameservers (requestId : Nat)
  | lifetimeTimeout
  | otherRaise
deriving DecidableEq

/-- Source: the `resolve` closure of `backends.dnspython_backend`
(`try/except` dispatch): `NoMetaqueries → REFUSED`, `YXDOMAIN → YXDOMAIN`,
`NXDOMAIN → NXDOMAIN` (collecting ids and extra record sections),
`NoNameservers → SERVFAIL` with `ername = NoNameservers`,
`LifetimeTimeout → SERVFAIL` with `ername = Timeout`; any other exception
is uncaught and propagates (`none`). -/
def dnspythonResolve (outcome : ResolveOutcome) : Option BackendResponse :=
  match outcome with
  | ResolveOutcome.answer i fl c cn rr ar au =>
    some { id := some i, flags := fl, code := c
           rrset := cn ++ rr, arset := ar, auset := au }
  | ResolveOutcome.noMetaqueries => some { code := Rcode.REFUSED }
  | ResolveOutcome.yxdomain => some { code := Rcode.YXDOMAIN }
  | ResolveOutcome.nxdomain msgs =>
    some { id := msgs.foldl (fun acc m => if m.1 ≠ 0 then some m.1 else acc) none
           code := Rcode.NXDOMAIN
           arset := msgs.foldl (fun acc m => acc ++ m.2.1) []
           auset := msgs.foldl (fun acc m => acc ++ m.2.2) [] }
  | ResolveOutcome.noNameservers reqId =>
    some { id := some reqId, code := Rcode.SERVFAIL
           ername := some ErName.NoNameservers }
  | ResolveOutcome.lifetimeTimeout =>
    some { code := Rcode.SERVFAIL, ername := some ErName.Timeout }
  | ResolveOutcome.otherRaise => none

/-- Serialized form of an `ARStats` (its `model_dump()`): the numeric
fields only — `params` is excluded from serialization. -/
structure ARStatsDump where
  count : Nat
  mean : ℚ
  delta_m2 : ℚ
  variance : ℚ
  stdev : ℚ
  P : ℚ
  alpha : ℚ
  latest : ℚ
  mean_xy : ℚ
  mean_v2 : ℚ
  idle : Nat
  drc : Nat
deriving DecidableEq

/-- Source: serialization of an `ARStats` (drops the excluded `params`). -/
def ARStats.dump (s : ARStats) : ARStatsDump :=
  { count := s.count, mean := s.mean, delta_m2 := s.delta_m2
    variance := s.variance, stdev := s.stdev, P := s.P, alpha := s.alpha
    latest := s.latest, mean_xy := s.mean_xy, mean_v2 := s.mean_v2
    idle := s.idle, drc := s.drc }

/-- Source: validation of a dumped `ARStats`; the absent `params` gets the
default. Pydantic range checks (nonnegativity) are omitted: every dump of
a state reached by the algorithm satisfies them. -/
def ARStatsDump.validate (d : ARStatsDump) : ARStats :=
  { toRunningVariance :=
      { toRunningMean := { count := d.count, mean := d.mean }
        delta_m2 := d.delta_m2, variance := d.variance, stdev := d.stdev }
    P := d.P, alpha := d.alpha, latest := d.latest, mean_xy := d.mean_xy
    mean_v2 := d.mean_v2, idle := d.idle, drc := d.drc, params := {} }

/-- Serialized form of an `ar1.State` `model_dump()`: the inherited global
running mean, `SM` and `SR` sorted by value (their `PlainSerializer` is
`dvsorted`), and `SAR` sorted by value (`ARStats` orders by `P`), with the
`params` fields excluded. -/
structure AR1Dump where
  count : Nat
  mean : ℚ
  SM : List (Server × RunningMean)
  SR : List (Server × ℚ)
  SAR : List (Server × ARStatsDump)
deriving DecidableEq

/-- Source: `model_dump()` of an `ar1.State` (`dvsorted` on `SM`, `SR`,
`SAR`; values ordered by `mean`, the number itself, and `P` respectively,
via each model's `ordering_attribute`; Python `sorted` is stable). -/
def AR1State.dump (st : AR1State) : AR1Dump :=
  { count := st.count, mean := st.mean
    SM := List.insertionSort (fun p q => p.2.mean ≤ q.2.mean) st.SM
    SR := List.insertionSort (fun p q => p.2 ≤ q.2) st.SR
    SAR := List.insertionSort (fun p q => p.2.P ≤ q.2.P)
      (st.SAR.map fun p => (p.1, p.2.dump)) }

/-- Source: `model_validate` of dumped `ar1.State` data; `params` fields
(excluded from dumps) come back as defaults. Range checks omitted as for
`ARStatsDump.validate`. -/
def AR1Dump.validate (d : AR1Dump) : AR1State :=
  { count := d.count, mean := d.mean, SM := d.SM, SR := d.SR
    SAR := d.SAR.map fun p => (p.1, p.2.validate)
    params := {} }

/-- Source: `base.State.load` specialized to `ar1.State` plus
`ar1.State.load`'s params rebinding. `data = self.model_dump() |
self.model_validate(data).model_dump()`: both dumps carry exactly the same
keys, so the merge equals the right operand. Then every dumped field is
assigned from the re-validated merge, the servers previously in `SM` are
re-`add`ed, and every `ARStats` gets its `params` rebound to the state
params. -/
def AR1State.load (st : AR1State) (data : AR1Dump) : AR1State :=
  let servers := dictKeys st.SM
  let other := AR1Dump.validate (AR1Dump.validate data).dump
  let st :=
    { st with
      count := other.count
      mean := other.mean
      SM := other.SM
      SR := other.SR
      SAR := other.SAR }
  let st := servers.foldl AR1State.add st
  { st with SAR := st.SAR.map fun p => (p.1, { p.2 with params := st.params }) }

/-- Serialized form of a `bmod.State` `model_dump()`: `SM` and `SR` are
`dvsorted`; `SRM` has no serializer and keeps insertion order. -/
structure BmodDump where
  count : Nat
  mean : ℚ
  SM : List (Server × RunningMean)
  SR : List (Server × ℚ)
  SRM : List (Server × ℚ)
deriving DecidableEq

/-- Source: `model_dump()` of a `bmod.State`. -/
def BmodState.dump (st : BmodState) : BmodDump :=
  { count := st.count, mean := st.mean
    SM := List.insertionSort (fun p q => p.2.mean ≤ q.2.mean) st.SM
    SR := List.insertionSort (fun p q => p.2 ≤ q.2) st.SR
    SRM := st.SRM }

/-- Source: `model_validate` of dumped `bmod.State` data (`params`
defaulted, range checks omitted). -/
def BmodDump.validate (d : BmodDump) : BmodState :=
  { toBindState :=
      { toBaseState :=
          { toRunningMean := { count := d.count, mean := d.mean }
            SM := d.SM }
        SR := d.SR, params := {} }
    SRM := d.SRM }

/-- Source: `base.State.load` specialized to `bmod.State` (no extra
override in `bmod`): merge, assign every dumped field, re-`add` the
servers previously in `SM`. -/
def BmodState.load (st : BmodState) (data : BmodDump) : BmodState :=
  let servers := dictKeys st.SM
  let other := BmodDump.validate (BmodDump.validate data).dump
  let st := { st with
              toBindState :=
                { toBaseState :=
                    { toRunningMean := { count := other.count, mean := other.mean }
                      SM := other.SM }
                  SR := other.SR, params := st.params }
              SRM := other.SRM }
  servers.foldl BmodState.add st

/-- Scenario input for the AR-1 alpha-clamp scenario: a freshly added
`ARStats` (created as `ARStats(params=...)` then `reset()` by
`ar1.State.add`). -/
def c1stats0 : ARStats := ARStats.reset { params := {} }

/-- Scenario of the AR-1 alpha-clamp claim: two observations of the
identical rtime `0.05` (the first two of the ten). -/
def c1trace : Option ARStats :=
  (c1stats0.observe (1/20)).bind fun s => s.observe (1/20)

/-- Two-server BMOD state for the C3 counterexample. -/
def c3state0 : BmodState := (({} : BmodState).add "a").add "b"

/-- BMOD trace: observe server a twice (rtime 1), then server b once, all
with candidates [a, b]. After the third observation the non-selected
server a has SR = 0.98 < 1 = SRM. -/
def c3trace : Option BmodState := do
  let s ← c3state0.observe "a" 1 Rcode.NOERROR ["a", "b"]
  let s ← s.observe "a" 1 Rcode.NOERROR ["a", "b"]
  s.observe "b" 1 Rcode.NOERROR ["a", "b"]

/-- Two-server AR-1 state for the C4 counterexample: servers a and x. -/
def c4state0 : AR1State := (({} : AR1State).add "a").add "x"

/-- AR-1 trace for C4: server a is selected with candidate list [a] only
(as happens when a domain rule restricts the candidates); x is in the
state but not among the candidates, so its idle count does not move. -/
def c4trace : Option AR1State := c4state0.observe "a" (1/2) Rcode.NOERROR ["a"]

/-- Two-server AR-1 state for the C5 idle-override scenario. -/
def c5state0 : AR1State := (({} : AR1State).add "x").add "y"

/-- Response times for the 101 queries to server y: alternating 1 and 3,
so y's variance stays positive and the alpha division never hits a zero
denominator. -/
def c5rtime (i : Nat) : ℚ := if i % 2 = 0 then 1 else 3

/-- AR-1 trace for C5: server x selected once (rtime 0.5), then 101
queries to server y with x a candidate each time. -/
def c5trace : Option AR1State := do
  let s ← c5state0.observe "x" (1/2) Rcode.NOERROR ["x", "y"]
  (List.range 101).foldlM
    (fun st i => AR1State.observe st "y" (c5rtime i) Rcode.NOERROR ["x", "y"]) s

/-- Two-server BIND state for the C6 scenario (default a = 0.7, g = 0.98). -/
def c6state0 : BindState := (({} : BindState).add "s1").add "s2"

/-- BIND scenario step 1: observe (s1, 0.1) with candidates [s1, s2]. -/
def c6state1 : Option BindState :=
  c6state0.observe "s1" (1/10) Rcode.NOERROR ["s1", "s2"]

/-- BIND scenario step 2: observe (s2, 0.2) with candidates [s1, s2]. -/
def c6state2 : Option BindState :=
  c6state1.bind fun s => s.observe "s2" (1/5) Rcode.NOERROR ["s1", "s2"]

/-- Modelled from the spec's wording of `matches` for the C7
counterexample: "a rule matches when qname equals `domain` or ends with
`.domain` (optional trailing dot tolerated)" — with no constraint that
anything precede that dot. -/
def specMatchOne (d q : List Char) : Bool :=
  (q == d) || (q == d ++ ['.']) ||
  List.isSuffixOf ('.' :: d) q ||
  List.isSuffixOf ('.' :: (d ++ ['.'])) q

/-- Routing scenario rule: example.com forwards to server A. -/
def c7ruleA : DomainRule := { domain := "example.com", servers := ["A"] }

/-- Routing scenario rule: foo.example.com forwards to server B. -/
def c7ruleB : DomainRule := { domain := "foo.example.com", servers := ["B"] }

/-- Routing scenario config: default server D, the two rules above given in
least-specific-first order (the config sorts them). -/
def c7config : ResolverConfig := mkConfig ["D"] [c7ruleA, c7ruleB]

/-- Reachability of a base `State` by any sequence of `add` and `observe`
calls from a fresh state (an `observe` that raises, i.e. returns `none`,
produces no new state). -/
inductive BaseReachable : BaseState → Prop where
  | init : BaseReachable {}
  | add (st : BaseState) (server : Server) :
      BaseReachable st → BaseReachable (st.add server)
  | observe (st st' : BaseState) (server : Server) (rtime : ℚ)
      (code : Rcode) (servers : List Server) :
      BaseReachable st → st.observe server rtime code servers = some st' →
      BaseReachable st'

/-- Concrete query environment used as a witness input: one server, every
backend call SERVFAILs, retry budget 1, trivial state. -/
def c2env : QueryEnv Unit :=
  { retries_max := 1
    ranked := fun _ l => l
    observe := fun _ _ _ _ _ => ()
    backend := fun _ _ => { code := Rcode.SERVFAIL, rtime := 1 } }

theorem dictGet_nil {α : Type} (k : Server) : dictGet (α := α) k [] = none := rfl

theorem dictGet_cons {α : Type} (k k' : Server) (v' : α) (rest : List (Server × α)) :
    dictGet k ((k', v') :: rest) = if k' = k then some v' else dictGet k rest := rfl

theorem dictSet_nil {α : Type} (k : Server) (v : α) : dictSet k v [] = [(k, v)] := rfl

theorem dictSet_cons {α : Type} (k k' : Server) (v v' : α) (rest : List (Server × α)) :
    dictSet k v ((k', v') :: rest) =
      if k' = k then (k, v) :: rest else (k', v') :: dictSet k v rest := rfl

theorem dictGet_dictSet_self {α : Type} (k : Server) (v : α) (l : List (Server × α)) :
    dictGet k (dictSet k v l) = some v := by
  induction l with
  | nil => simp [dictGet_nil, dictGet_cons, dictSet_nil]
  | cons p rest ih =>
    obtain ⟨k', v'⟩ := p
    rw [dictSet_cons]
    by_cases h : k' = k
    · rw [if_pos h, dictGet_cons, if_pos rfl]
    · rw [if_neg h, dictGet_cons, if_neg h, ih]

theorem dictGet_dictSet_ne {α : Type} {t k : Server} (hne : t ≠ k) (v : α)
    (l : List (Server × α)) : dictGet t (dictSet k v l) = dictGet t l := by
  have hkt : ¬ (k = t) := fun e => hne e.symm
  induction l with
  | nil => rw [dictSet_nil, dictGet_cons, if_neg hkt, dictGet_nil]
  | cons p rest ih =>
    obtain ⟨k', v'⟩ := p
    rw [dictSet_cons]
    by_cases h : k' = k
    · subst h
      rw [if_pos rfl, dictGet_cons, if_neg hkt, dictGet_cons, if_neg hkt]
    · rw [if_neg h, dictGet_cons, dictGet_cons, ih]

theorem dictGet_mapVal {α β : Type} (f : α → β) (k : Server) (l : List (Server × α)) :
    dictGet k (l.map fun p => (p.1, f p.2)) = (dictGet k l).map f := by
  induction l with
  | nil => rfl
  | cons p rest ih =>
    obtain ⟨k', v'⟩ := p
    rw [List.map_cons]
    show dictGet k ((k', f v') :: rest.map fun p => (p.1, f p.2)) = _
    rw [dictGet_cons, dictGet_cons]
    by_cases h : k' = k
    · rw [if_pos h, if_pos h, Option.map_some']
    · rw [if_neg h, if_neg h, ih]

theorem dictGet_eq_none_iff {α : Type} (k : Server) (l : List (Server × α)) :
    dictGet k l = none ↔ k ∉ dictKeys l := by
  induction l with
  | nil => simp [dictGet_nil, dictKeys]
  | cons p rest ih =>
    obtain ⟨k', v'⟩ := p
    rw [dictGet_cons]
    by_cases h : k' = k
    · subst h
      simp [dictKeys]
    · have h' : ¬ (k = k') := fun e => h e.symm
      simp [if_neg h, dictKeys, h', ih]

theorem dictGet_eq_some_iff {α : Type} {k : Server} {v : α} {l : List (Server × α)}
    (hnd : (dictKeys l).Nodup) : dictGet k l = some v ↔ (k, v) ∈ l := by
  induction l with
  | nil => simp [dictGet_nil]
  | cons p rest ih =>
    obtain ⟨k', v'⟩ := p
    simp only [dictKeys, List.map_cons, List.nodup_cons] at hnd
    rw [dictGet_cons]
    by_cases h : k' = k
    · subst h
      have hnotin : (k', v) ∉ rest := fun hw =>
        hnd.1 (List.mem_map_of_mem Prod.fst hw)
      rw [if_pos rfl]
      simp only [List.mem_cons, Option.some_inj, Prod.mk.injEq, true_and]
      constructor
      · intro he
        exact Or.inl he.symm
      · rintro (he | hm)
        · exact he.symm
        · exact absurd hm hnotin
    · have hkk : ¬ ((k, v) = (k', v')) := fun e => h (congrArg Prod.fst e).symm
      rw [if_neg h]
      simp only [List.mem_cons, hkk, false_or]
      exact ih hnd.2

theorem dictKeys_perm {α : Type} {l l' : List (Server × α)} (h : l.Perm l') :
    (dictKeys l).Perm (dictKeys l') := h.map Prod.fst

theorem dictGet_perm {α : Type} {l l' : List (Server × α)} (h : l.Perm l')
    (hnd : (dictKeys l).Nodup) (k : Server) : dictGet k l = dictGet k l' := by
  have hnd' : (dictKeys l').Nodup := ((dictKeys_perm h).nodup_iff).mp hnd
  cases o : dictGet k l with
  | none =>
    rw [dictGet_eq_none_iff] at o
    have hq : k ∉ dictKeys l' := fun hm => o ((dictKeys_perm h).mem_iff.mpr hm)
    exact ((dictGet_eq_none_iff k l').mpr hq).symm
  | some v =>
    have hm : (k, v) ∈ l := (dictGet_eq_some_iff hnd).mp o
    exact ((dictGet_eq_some_iff hnd').mpr (h.mem_iff.mp hm)).symm

theorem dictKeys_dictSet_of_mem {α : Type} {k : Server} {l : List (Server × α)}
    (h : k ∈ dictKeys l) (v : α) : dictKeys (dictSet k v l) = dictKeys l := by
  induction l with
  | nil => simp [dictKeys] at h
  | cons p rest ih =>
    obtain ⟨k', v'⟩ := p
    rw [dictSet_cons]
    by_cases he : k' = k
    · subst he
      rw [if_pos rfl]
      simp [dictKeys]
    · rw [if_neg he]
      simp only [dictKeys, List.map_cons, List.mem_cons] at h
      rcases h with h | h
      · exact absurd h.symm he
      · have := ih h
        simp only [dictKeys, List.map_cons] at this ⊢
        rw [this]

attribute [local semireducible] Rat.add Rat.mul Rat.inv Rat.sub

/-- C1: the claim asserts that feeding identical rtimes of 0.05 completes
with `alpha` clamped to `alpha_min`. In fact, after the first observation
(`count = 1`, `mean = 0.05`, `stdev = 0`) the second identical observation
reaches the alpha division with `mean_xy = mean_v2 = mean² = 1/400`, so the
denominator `mean_v2 - mean²` is exactly zero and the source raises
`ZeroDivisionError` (`none` here): the observe computation does not
complete for this input sequence. -/
theorem C1_identical_rtimes_zero_division :
    (c1stats0.observe (1/20)).map (fun s => (s.count, s.mean, s.stdev)) =
      some (1, 1/20, 0) ∧
    c1trace = none := by decide

/-- C3 counterexample: in the state reached by observing server a twice and
then server b once (all with candidates [a, b], rtime 1, defaults a = 0.7,
g = 0.98), the non-selected candidate a ends with `SR[a] = 0.98 < 1 =
SRM[a]` immediately after the observation of b — refuting the claim that
`SR[s] ≥ SRM[s]` holds for every server s in the state after any observe. -/
theorem C3_counterexample :
    (c3trace.bind fun s => dictGet "a" s.SR) = some (49/50) ∧
    (c3trace.bind fun s => dictGet "a" s.SRM) = some 1 ∧
    ¬ ((1 : ℚ) ≤ 49/50) := by decide

/-- C3 amended: immediately after any completed BMOD observation, the
SELECTED server satisfies `SR[server] ≥ SRM[server]` (its `SR` is set to
`max(SR[server], SRM[server])`); for non-selected candidates the
discounting of `SR` by `g` can drop `SR` below the undiscounted `SRM`. -/
theorem C3_SR_ge_SRM_selected (st st' : BmodState) (server : Server) (rtime : ℚ)
    (code : Rcode) (servers : List Server)
    (h : st.observe server rtime code servers = some st') :
    ∃ r m : ℚ, dictGet server st'.SR = some r ∧ dictGet server st'.SRM = some m ∧
      m ≤ r := by
  simp only [BmodState.observe, bind, Option.bind_eq_some, Option.pure_def,
    Option.some_inj] at h
  obtain ⟨b, hb, RM, hRM, Rsel, hRsel, hst⟩ := h
  subst hst
  exact ⟨_, _, dictGet_dictSet_self _ _ _, dictGet_dictSet_self _ _ _,
    le_max_right _ _⟩

/-- Witness for the amended C3 theorem at a concrete observation. -/
theorem C3_SR_ge_SRM_selected_witness :
    ∃ (s : BmodState) (r m : ℚ),
      c3state0.observe "a" 1 Rcode.NOERROR ["a", "b"] = some s ∧
      dictGet "a" s.SR = some r ∧ dictGet "a" s.SRM = some m ∧ m ≤ r := by
  have hs : (c3state0.observe "a" 1 Rcode.NOERROR ["a", "b"]).isSome = true := by
    decide
  have h : c3state0.observe "a" 1 Rcode.NOERROR ["a", "b"] =
      some ((c3state0.observe "a" 1 Rcode.NOERROR ["a", "b"]).get hs) :=
    (Option.some_get hs).symm
  obtain ⟨r, m, h1, h2, h3⟩ := C3_SR_ge_SRM_selected _ _ _ _ _ _ h
  exact ⟨_, r, m, h, h1, h2, h3⟩

/-- C8 counterexample: an exception outside the five handled kinds is not
mapped into a SERVFAIL `BackendResponse` by the dnspython backend — it
propagates (the `except` clauses have no catch-all), so `query` can raise
mid-query beyond the no-candidates case. -/
theorem C8_counterexample : dnspythonResolve ResolveOutcome.otherRaise = none := rfl

/-- C8 amended: backend-signalled timeouts come back as SERVFAIL with
`ername = Timeout` and no-nameservers errors as SERVFAIL with
`ername = NoNameservers`; the remaining handled exceptions map to their
codes (REFUSED, YXDOMAIN, and NXDOMAIN with collected sections); but only
the handled exceptions are mapped — any other backend exception
propagates out of the backend (and hence out of `query`). -/
theorem C8_backend_error_mapping :
    dnspythonResolve ResolveOutcome.lifetimeTimeout =
      some { code := Rcode.SERVFAIL, ername := some ErName.Timeout } ∧
    (∀ i : Nat, dnspythonResolve (ResolveOutcome.noNameservers i) =
      some { id := some i, code := Rcode.SERVFAIL,
             ername := some ErName.NoNameservers }) ∧
    dnspythonResolve ResolveOutcome.noMetaqueries =
      some { code := Rcode.REFUSED } ∧
    dnspythonResolve ResolveOutcome.yxdomain =
      some { code := Rcode.YXDOMAIN } ∧
    (∀ o : ResolveOutcome,
      dnspythonResolve o = none ↔ o = ResolveOutcome.otherRaise) := by
  refine ⟨rfl, fun i => rfl, rfl, rfl, fun o => ?_⟩
  cases o <;> simp [dnspythonResolve]

theorem smCountSum_dictSet {l : List (Server × RunningMean)} {k : Server}
    {m : RunningMean} (h : dictGet k l = some m) (r : ℚ) :
    ((dictSet k (m.observe r) l).map fun p => p.2.count).sum =
      ((l.map fun p => p.2.count).sum) + 1 := by
  induction l with
  | nil => rw [dictGet_nil] at h; exact absurd h (by simp)
  | cons p rest ih =>
    obtain ⟨k', v'⟩ := p
    rw [dictGet_cons] at h
    rw [dictSet_cons]
    by_cases he : k' = k
    · rw [if_pos he] at h ⊢
      have hv : v' = m := by
        have := h
        simpa using this
      subst hv
      simp only [List.map_cons, List.sum_cons, RunningMean.observe]
      omega
    · rw [if_neg he] at h ⊢
      simp only [List.map_cons, List.sum_cons]
      rw [ih h]
      omega

/-- C10: for every state reachable from a fresh base `State` by `add` and
`observe` calls, the global running-mean `count` equals the sum of
`SM[s].count` over the per-server entries, and an `observe(server, ...)`
changes no `SM` entry other than `SM[server]`. -/
theorem C10_SM_count_accounting :
    (∀ st : BaseState, BaseReachable st →
      st.count = (st.SM.map fun p => p.2.count).sum) ∧
    (∀ (st : BaseState) (server : Server) (rtime : ℚ) (code : Rcode)
        (servers : List Server) (st' : BaseState),
      st.observe server rtime code servers = some st' →
      ∀ t, t ≠ server → dictGet t st'.SM = dictGet t st.SM) := by
  constructor
  · intro st h
    induction h with
    | init => rfl
    | add st server _ ih =>
      unfold BaseState.add
      by_cases hh : dictHas server st.SM
      · simpa [hh] using ih
      · simp only [hh, Bool.false_eq_true, if_false, List.map_append,
          List.sum_append]
        simpa using ih
    | observe st st' server rtime code servers _ hobs ih =>
      unfold BaseState.observe at hobs
      cases hg : dictGet server st.SM with
      | none => rw [hg] at hobs; exact absurd hobs (by simp)
      | some m =>
        rw [hg] at hobs
        simp only [Option.map_some', Option.some_inj] at hobs
        subst hobs
        rw [smCountSum_dictSet hg]
        simp only [RunningMean.observe]
        omega
  · intro st server rtime code servers st' h t ht
    unfold BaseState.observe at h
    cases hg : dictGet server st.SM with
    | none => rw [hg] at h; exact absurd h (by simp)
    | some m =>
      rw [hg] at h
      simp only [Option.map_some', Option.some_inj] at h
      subst h
      exact dictGet_dictSet_ne ht _ _

/-- Witness for C10 at concrete inputs: reachability of a one-server state
and frame preservation of a concrete observation. -/
theorem C10_SM_count_accounting_witness :
    ((({} : BaseState).add "a").count =
      (((({} : BaseState).add "a").SM.map fun p => p.2.count)).sum) ∧
    (∃ s : BaseState,
      (({} : BaseState).add "a").observe "a" 1 Rcode.NOERROR ["a"] = some s ∧
      dictGet "b" s.SM = dictGet "b" (({} : BaseState).add "a").SM) := by
  constructor
  · exact C10_SM_count_accounting.1 _ (BaseReachable.add _ "a" BaseReachable.init)
  · have hs : ((({} : BaseState).add "a").observe "a" 1 Rcode.NOERROR
        ["a"]).isSome = true := by decide
    have h := (Option.some_get hs).symm
    exact ⟨_, h, C10_SM_count_accounting.2 _ _ _ _ _ _ h "b" (by decide)⟩

theorem bindSRloop_spec (a g : ℚ) (server : Server) (rtime : ℚ) :
    ∀ (todo : List Server) (SR SR' : List (Server × ℚ)),
      todo.Nodup →
      bindSRloop a g server rtime todo SR = some SR' →
      (∀ Si ∈ todo, ∃ Ri, dictGet Si SR = some Ri ∧
        dictGet Si SR' = some (if Si = server then
          (if Ri = 0 then 0 else a) * Ri + (1 - (if Ri = 0 then 0 else a)) * rtime
        else g * Ri)) ∧
      (∀ t, t ∉ todo → dictGet t SR' = dictGet t SR) := by
  intro todo
  induction todo with
  | nil =>
    intro SR SR' _ h
    simp only [bindSRloop, List.foldlM_nil, Option.pure_def, Option.some_inj] at h
    subst h
    exact ⟨by simp, fun t _ => rfl⟩
  | cons Si rest ih =>
    intro SR SR' hnd h
    simp only [bindSRloop, List.foldlM_cons, bind, Option.bind_eq_some] at h
    obtain ⟨SR1, h1, h2⟩ := h
    unfold bindSRstep at h1
    cases hg : dictGet Si SR with
    | none => rw [hg] at h1; exact absurd h1 (by simp)
    | some Ri =>
      rw [hg] at h1
      simp only [Option.map_some', Option.some_inj] at h1
      have h1' : SR1 = dictSet Si
          (if Si = server then
            (if Ri = 0 then 0 else a) * Ri + (1 - (if Ri = 0 then 0 else a)) * rtime
          else g * Ri) SR := by
        rw [← h1]
        exact (apply_ite (fun v => dictSet Si v SR) _ _ _).symm
      obtain ⟨hhd, hnd'⟩ := List.nodup_cons.mp hnd
      have hloop : bindSRloop a g server rtime rest SR1 = some SR' := h2
      obtain ⟨ihm, ihf⟩ := ih SR1 SR' hnd' hloop
      have hSR1get : ∀ t, t ≠ Si → dictGet t SR1 = dictGet t SR := by
        intro t ht
        rw [h1']
        exact dictGet_dictSet_ne ht _ _
      refine ⟨?_, ?_⟩
      · intro Sj hj
        rcases List.mem_cons.mp hj with rfl | hj'
        · refine ⟨Ri, hg, ?_⟩
          rw [ihf _ hhd, h1']
          exact dictGet_dictSet_self _ _ _
        · have hne : Sj ≠ Si := fun e => hhd (e ▸ hj')
          obtain ⟨Rj, hRj, hRj'⟩ := ihm Sj hj'
          rw [hSR1get Sj hne] at hRj
          exact ⟨Rj, hRj, hRj'⟩
      · intro t ht
        have ht1 : t ∉ rest := fun hm => ht (List.mem_cons_of_mem _ hm)
        have ht2 : t ≠ Si := fun e => ht (e ▸ List.mem_cons_self _ _)
        rw [ihf t ht1, hSR1get t ht2]

/-- C6: a BIND observation sets the selected server's SR to
`a'·SR + (1-a')·rtime` with `a'` overridden to 0 when the prior SR is 0
(so the first observation stores the rtime), and multiplies every other
candidate's SR by `g`; and the concrete two-server scenario with the
default `a = 0.7`, `g = 0.98`: after `(s1, 0.1)` then `(s2, 0.2)` the SR
values are 0.1, 0 and then 0.098, 0.2, with rank(s1) < rank(s2). -/
theorem C6_bind_observe_update :
    (∀ (st st' : BindState) (server : Server) (rtime : ℚ) (code : Rcode)
        (servers : List Server),
      servers.Nodup →
      st.observe server rtime code servers = some st' →
      ∀ Si ∈ servers, ∃ Ri, dictGet Si st.SR = some Ri ∧
        dictGet Si st'.SR = some (if Si = server then
          (if Ri = 0 then 0 else st.params.a) * Ri +
            (1 - (if Ri = 0 then 0 else st.params.a)) * rtime
          else st.params.g * Ri)) ∧
    ((c6state1.bind fun s => dictGet "s1" s.SR) = some (1/10) ∧
     (c6state1.bind fun s => dictGet "s2" s.SR) = some 0 ∧
     (c6state2.bind fun s => dictGet "s1" s.SR) = some (49/500) ∧
     (c6state2.bind fun s => dictGet "s2" s.SR) = some (1/5) ∧
     (c6state2.bind fun s => s.rank "s1") = some (49/500) ∧
     (c6state2.bind fun s => s.rank "s2") = some (1/5) ∧
     ((49 : ℚ)/500 < 1/5)) := by
  constructor
  · intro st st' server rtime code servers hnd h
    simp only [BindState.observe, bind, Option.bind_eq_some, Option.pure_def,
      Option.some_inj] at h
    obtain ⟨base, hbase, SR', hSR, hst⟩ := h
    subst hst
    intro Si hSi
    obtain ⟨hm, _⟩ :=
      bindSRloop_spec st.params.a st.params.g server rtime servers st.SR SR' hnd hSR
    exact hm Si hSi
  · decide

/-- Witness for the C6 update characterization at the first scenario step. -/
theorem C6_bind_observe_update_witness :
    ∃ (s : BindState) (R1 : ℚ),
      c6state0.observe "s1" (1/10) Rcode.NOERROR ["s1", "s2"] = some s ∧
      dictGet "s1" c6state0.SR = some R1 ∧
      dictGet "s1" s.SR = some (if ("s1" : Server) = "s1" then
        (if R1 = 0 then 0 else c6state0.params.a) * R1 +
          (1 - (if R1 = 0 then 0 else c6state0.params.a)) * (1/10)
        else c6state0.params.g * R1) := by
  have hs : (c6state0.observe "s1" (1/10) Rcode.NOERROR ["s1", "s2"]).isSome
      = true := by decide
  have h := (Option.some_get hs).symm
  obtain ⟨Ri, h1, h2⟩ :=
    C6_bind_observe_update.1 _ _ _ _ _ _ (by decide) h "s1" (by simp)
  exact ⟨_, Ri, h, h1, h2⟩

theorem ARStats.observe_idle {s s' : ARStats} {r : ℚ}
    (h : s.observe r = some s') : s'.idle = 0 := by
  simp only [ARStats.observe] at h
  split at h
  · split at h
    · exact absurd h (by simp)
    · injection h with h2
      subst h2
      rfl
  · injection h with h2
    subst h2
    rfl

theorem ARStats.predict_idle (s : ARStats) : s.predict.idle = s.idle := rfl

theorem sarLoop_spec (params : AR1Params) (server : Server) (rtime : ℚ) :
    ∀ (todo : List Server) (SAR SAR' : List (Server × ARStats)),
      todo.Nodup →
      sarLoop params server rtime todo SAR = some SAR' →
      (∀ Si ∈ todo, Si = server →
        ∃ AR', dictGet Si SAR' = some AR' ∧ AR'.idle = 0) ∧
      (∀ Si ∈ todo, Si ≠ server → ∃ AR AR', dictGet Si SAR = some AR ∧
        dictGet Si SAR' = some AR' ∧ AR'.idle = AR.idle + 1) ∧
      (∀ t, t ∉ todo → dictGet t SAR' = dictGet t SAR) := by
  intro todo
  induction todo with
  | nil =>
    intro SAR SAR' _ h
    simp only [sarLoop, List.foldlM_nil, Option.pure_def, Option.some_inj] at h
    subst h
    exact ⟨by simp, by simp, fun t _ => rfl⟩
  | cons Si rest ih =>
    intro SAR SAR' hnd h
    simp only [sarLoop, List.foldlM_cons, bind, Option.bind_eq_some] at h
    obtain ⟨SAR1, h1, h2⟩ := h
    simp only [sarStep, bind, Option.bind_eq_some] at h1
    obtain ⟨ARi, hget, hrest⟩ := h1
    have hstep : ∃ AR2 : ARStats,
        SAR1 = dictSet Si
          (if AR2.count ≥ params.p_count_min then AR2.predict else AR2) SAR ∧
        ((Si = server ∧ ARi.observe rtime = some AR2) ∨
         (Si ≠ server ∧ AR2 = { ARi with idle := ARi.idle + 1 })) := by
      by_cases hss : Si = server
      · rw [if_pos hss] at hrest
        simp only [bind, Option.bind_eq_some, Option.pure_def,
          Option.some_inj] at hrest
        obtain ⟨AR2, hAR2, hSAR1⟩ := hrest
        exact ⟨AR2, hSAR1.symm, Or.inl ⟨hss, hAR2⟩⟩
      · rw [if_neg hss] at hrest
        simp only [bind, Option.bind_eq_some, Option.pure_def,
          Option.some_inj] at hrest
        obtain ⟨AR2, hAR2, hSAR1⟩ := hrest
        exact ⟨AR2, hSAR1.symm, Or.inr ⟨hss, hAR2.symm⟩⟩
    obtain ⟨AR2, hSAR1, hcase⟩ := hstep
    obtain ⟨hhd, hnd'⟩ := List.nodup_cons.mp hnd
    have hloop : sarLoop params server rtime rest SAR1 = some SAR' := h2
    obtain ⟨ihsel, ihoth, ihf⟩ := ih SAR1 SAR' hnd' hloop
    have hfin : (if AR2.count ≥ params.p_count_min then AR2.predict else AR2).idle
        = AR2.idle := by
      split
      · exact ARStats.predict_idle AR2
      · rfl
    have hSAR1get : ∀ t, t ≠ Si → dictGet t SAR1 = dictGet t SAR := by
      intro t ht
      rw [hSAR1]
      exact dictGet_dictSet_ne ht _ _
    have hSiSAR1 : dictGet Si SAR1 =
        some (if AR2.count ≥ params.p_count_min then AR2.predict else AR2) := by
      rw [hSAR1]
      exact dictGet_dictSet_self _ _ _
    refine ⟨?_, ?_, ?_⟩
    · intro Sj hj he
      rcases List.mem_cons.mp hj with rfl | hj'
      · rcases hcase with ⟨_, hobs⟩ | ⟨hne, _⟩
        · refine ⟨_, by rw [ihf _ hhd, hSiSAR1], ?_⟩
          rw [hfin]
          exact ARStats.observe_idle hobs
        · exact absurd he hne
      · exact ihsel Sj hj' he
    · intro Sj hj he
      rcases List.mem_cons.mp hj with rfl | hj'
      · rcases hcase with ⟨hss, _⟩ | ⟨_, hAR2eq⟩
        · exact absurd hss he
        · refine ⟨ARi, _, hget, by rw [ihf _ hhd, hSiSAR1], ?_⟩
          rw [hfin, hAR2eq]
      · obtain ⟨AR, AR', hA, hA', hidle⟩ := ihoth Sj hj' he
        have hne : Sj ≠ Si := fun e => hhd (e ▸ hj')
        rw [hSAR1get Sj hne] at hA
        exact ⟨AR, AR', hA, hA', hidle⟩
    · intro t ht
      have ht1 : t ∉ rest := fun hm => ht (List.mem_cons_of_mem _ hm)
      have ht2 : t ≠ Si := fun e => ht (e ▸ List.mem_cons_self _ _)
      rw [ihf t ht1, hSAR1get t ht2]

/-- C4 counterexample: server a is selected with candidate list `["a"]`
(as when a domain rule restricts the candidates); server x is in the state,
another server was selected, yet `idle(x)` stays 0 — idle does not strictly
increase for servers outside the candidate list. -/
theorem C4_counterexample :
    c4trace.isSome = true ∧
    ((dictGet "x" c4state0.SAR).map ARStats.idle) = some 0 ∧
    (c4trace.bind fun s => (dictGet "x" s.SAR).map ARStats.idle) = some 0 := by
  decide

/-- C4 amended: after any completed AR-1 observation whose selected server
is among the candidates, the selected server's idle count is 0, and the
idle count of every OTHER CANDIDATE (rather than of every server) strictly
increases, by exactly one. -/
theorem C4_idle_update (st st' : AR1State) (server : Server) (rtime : ℚ)
    (code : Rcode) (servers : List Server)
    (hmem : server ∈ servers) (hnd : servers.Nodup)
    (h : st.observe server rtime code servers = some st') :
    (∃ AR', dictGet server st'.SAR = some AR' ∧ AR'.idle = 0) ∧
    (∀ Si ∈ servers, Si ≠ server → ∃ AR AR', dictGet Si st.SAR = some AR ∧
      dictGet Si st'.SAR = some AR' ∧ AR'.idle = AR.idle + 1) := by
  simp only [AR1State.observe, bind, Option.bind_eq_some, Option.pure_def,
    Option.some_inj] at h
  obtain ⟨m, hm, SR', hSR, SAR', hSAR, hst⟩ := h
  subst hst
  obtain ⟨h1, h2, _⟩ :=
    sarLoop_spec st.params server rtime servers st.SAR SAR' hnd hSAR
  exact ⟨h1 server hmem rfl, h2⟩

/-- Witness for the amended C4 theorem at a concrete observation with two
candidates. -/
theorem C4_idle_update_witness :
    ∃ s : AR1State,
      c5state0.observe "x" (1/2) Rcode.NOERROR ["x", "y"] = some s ∧
      (∃ AR', dictGet "x" s.SAR = some AR' ∧ AR'.idle = 0) ∧
      (∃ AR AR', dictGet "y" c5state0.SAR = some AR ∧
        dictGet "y" s.SAR = some AR' ∧ AR'.idle = AR.idle + 1) := by
  have hs : (c5state0.observe "x" (1/2) Rcode.NOERROR ["x", "y"]).isSome = true := by
    decide
  have h := (Option.some_get hs).symm
  obtain ⟨p1, p2⟩ := C4_idle_update _ _ _ _ _ _ (by simp) (by decide) h
  exact ⟨_, h, p1, p2 "y" (by simp) (by decide)⟩

set_option maxRecDepth 8000 in
set_option maxHeartbeats 4000000 in
/-- C5: the AR-1 rank of a server is `-idle` when `idle > idle_max`,
otherwise `P` when `P > 0`, otherwise the BIND `SR` value (given the
per-server invariant `P ≥ 0`; the source tests Python truthiness `P or
...`, which coincides with `P > 0` for nonnegative `P`); and the concrete
idle-override scenario: after server x is selected once (count 1,
rtime 0.5) and 101 further queries go to server y with x a candidate,
`idle(x) = 101 > idle_max = 100`, so `rank(x) = -101`, lower than the
(positive) rank of y — x is ranked first. -/
theorem C5_rank_characterization :
    (∀ (st : AR1State) (server : Server) (AR : ARStats),
      dictGet server st.SAR = some AR → 0 ≤ AR.P →
      st.rank server =
        if st.params.idle_max < AR.idle then some (-(AR.idle : ℚ))
        else if 0 < AR.P then some AR.P
        else dictGet server st.SR) ∧
    ((c5trace.bind fun s => s.rank "x") = some (-101) ∧
     (c5trace.bind fun s => (dictGet "x" s.SAR).map ARStats.idle) = some 101 ∧
     (c5trace.bind fun s => s.rank "y").isSome = true ∧
     (0 : ℚ) < (c5trace.bind fun s => s.rank "y").getD 0 ∧
     (-101 : ℚ) < (c5trace.bind fun s => s.rank "y").getD 0) := by
  constructor
  · intro st server AR hget hP
    simp only [AR1State.rank, hget, gt_iff_lt, ne_eq]
    by_cases hidle : st.params.idle_max < AR.idle
    · have hne : ¬ (-(AR.idle : ℚ) = 0) := by
        simp only [neg_eq_zero, Nat.cast_eq_zero]
        omega
      simp [hidle, hne]
    · by_cases hp : 0 < AR.P
      · simp [hidle, ne_of_gt hp, hp]
      · have hz : AR.P = 0 := le_antisymm (not_lt.mp hp) hP
        simp [hidle, hz, hp]
  · decide

set_option maxRecDepth 4000 in
/-- Witness for the C5 rank characterization at a concrete state: in
`c4state0` the freshly added server x has `idle = 0 ≤ idle_max` and
`P = 0`, so its rank is the BIND fallback `SR[x]`. -/
theorem C5_rank_characterization_witness :
    ∃ AR : ARStats, dictGet "x" c4state0.SAR = some AR ∧ 0 ≤ AR.P ∧
      c4state0.rank "x" =
        (if c4state0.params.idle_max < AR.idle then some (-(AR.idle : ℚ))
         else if 0 < AR.P then some AR.P
         else dictGet "x" c4state0.SR) := by
  have hPd : ((dictGet "x" c4state0.SAR).map fun a => decide (0 ≤ a.P)) =
      some true := by decide
  cases hg : dictGet "x" c4state0.SAR with
  | none => rw [hg] at hPd; exact absurd hPd (by simp)
  | some AR =>
    rw [hg] at hPd
    simp only [Option.map_some', Option.some_inj] at hPd
    have hP : 0 ≤ AR.P := of_decide_eq_true hPd
    exact ⟨AR, rfl, hP, C5_rank_characterization.1 c4state0 "x" AR hg hP⟩

theorem innerLoop_props {σ : Type} (env : QueryEnv σ) (rl : List Server) :
    ∀ (todo : List Server) (st : σ) (failed : List Server) (calls : Nat),
      calls = failed.length → failed.length ≤ env.retries_max →
      ∀ res st' failed' calls',
        innerLoop env rl st todo failed calls = (res, st', failed', calls') →
        (∀ rep server, res = some (rep, server) →
          calls' = failed'.length + 1 ∧ failed'.length ≤ env.retries_max ∧
          (rep.code ≠ Rcode.SERVFAIL ∨ failed'.length = env.retries_max)) ∧
        (res = none →
          calls' = failed'.length ∧
          failed'.length = failed.length + todo.length ∧
          failed'.length ≤ env.retries_max) := by
  intro todo
  induction todo with
  | nil =>
    intro st failed calls hcalls hle res st' failed' calls' heq
    simp only [innerLoop] at heq
    injection heq with h1 h2
    injection h2 with h2 h3
    injection h3 with h3 h4
    subst h1
    subst h2
    subst h3
    subst h4
    constructor
    · intro rep server hcontra
      exact absurd hcontra (by simp)
    · intro _
      simp [hcalls, hle]
  | cons server rest ih =>
    intro st failed calls hcalls hle res st' failed' calls' heq
    simp only [innerLoop] at heq
    split at heq
    case isTrue hc =>
      have hlen : calls + 1 = (failed ++ [server]).length := by
        simp [hcalls]
      have hle' : (failed ++ [server]).length ≤ env.retries_max := by
        simp only [List.length_append, List.length_singleton]
        omega
      obtain ⟨hsome, hnone⟩ :=
        ih _ (failed ++ [server]) (calls + 1) hlen hle' res st' failed' calls' heq
      refine ⟨hsome, fun hres => ?_⟩
      obtain ⟨k1, k2, k3⟩ := hnone hres
      refine ⟨k1, ?_, k3⟩
      simp only [List.length_append, List.length_singleton] at k2
      simp only [List.length_cons]
      omega
    case isFalse hc =>
      injection heq with h1 h2
      injection h2 with h2 h3
      injection h3 with h3 h4
      subst h2
      subst h3
      subst h4
      constructor
      · intro rep0 server0 hres
        rw [← h1] at hres
        injection hres with hrs
        injection hrs with hrep hsrv
        subst hrep
        refine ⟨by omega, hle, ?_⟩
        by_cases hcode : (env.backend calls server).code = Rcode.SERVFAIL
        · right
          have hnlt : ¬ failed.length < env.retries_max :=
            fun hlt => hc ⟨hcode, hlt⟩
          omega
        · left
          exact hcode
      · intro hres
        rw [← h1] at hres
        exact absurd hres (by simp)

theorem queryLoop_props {σ : Type} (env : QueryEnv σ)
    (hr : ∀ (s : σ) (l : List Server), l ≠ [] → env.ranked s l ≠ []) :
    ∀ (fuel : Nat) (st : σ) (servers failed : List Server) (calls : Nat),
      servers ≠ [] →
      calls = failed.length →
      failed.length ≤ env.retries_max →
      env.retries_max + 1 ≤ fuel + failed.length →
      ∃ rep server st' failed' calls',
        queryLoop env fuel st servers failed calls =
          some (rep, server, st', failed', calls') ∧
        calls' = failed'.length + 1 ∧
        failed'.length ≤ env.retries_max ∧
        (rep.code ≠ Rcode.SERVFAIL ∨ failed'.length = env.retries_max) := by
  intro fuel
  induction fuel with
  | zero =>
    intro st servers failed calls hne hcalls hle hfuel
    omega
  | succ fuel ih =>
    intro st servers failed calls hne hcalls hle hfuel
    have hrne : env.ranked st servers ≠ [] := hr st servers hne
    simp only [queryLoop]
    rw [if_neg hrne]
    rcases hres : innerLoop env (env.ranked st servers) st
        (env.ranked st servers) failed calls with ⟨res, st1, failed1, calls1⟩
    obtain ⟨hsome, hnone⟩ :=
      innerLoop_props env (env.ranked st servers) (env.ranked st servers)
        st failed calls hcalls hle res st1 failed1 calls1 hres
    cases res with
    | some pr =>
      obtain ⟨rep, server⟩ := pr
      obtain ⟨hc1, hc2, hc3⟩ := hsome rep server rfl
      exact ⟨rep, server, st1, failed1, calls1, rfl, hc1, hc2, hc3⟩
    | none =>
      obtain ⟨k1, k2, k3⟩ := hnone rfl
      have hpos : 0 < (env.ranked st servers).length := List.length_pos.mpr hrne
      exact ih st1 (env.ranked st servers) failed1 calls1 hrne k1 k3 (by omega)

/-- C2: with every backend call returning a response and a ranking that
never empties a nonempty candidate list, the retry loop of
`Resolver.query` terminates within fuel `retries_max + 1`: the returned
`failed` list has length at most `retries_max`, the number of backend
calls is `|failed| + 1 ≤ retries_max + 1` (every call except the final,
returned one appended a SERVFAIL to `failed`, so a non-SERVFAIL response
is returned immediately after its single observation), and the returned
response is either non-SERVFAIL or the retry budget is exhausted. -/
theorem C2_query_retry_bound {σ : Type} (env : QueryEnv σ) (st : σ)
    (servers : List Server)
    (hr : ∀ (s : σ) (l : List Server), l ≠ [] → env.ranked s l ≠ [])
    (hne : servers ≠ []) :
    ∃ rep server st' failed calls,
      query env st servers = some (rep, server, st', failed, calls) ∧
      failed.length ≤ env.retries_max ∧
      calls = failed.length + 1 ∧
      calls ≤ env.retries_max + 1 ∧
      (rep.code ≠ Rcode.SERVFAIL ∨ failed.length = env.retries_max) := by
  obtain ⟨rep, server, st', failed, calls, h1, h2, h3, h4⟩ :=
    queryLoop_props env hr (env.retries_max + 1) st servers [] 0 hne rfl
      (Nat.zero_le _) (by simp)
  exact ⟨rep, server, st', failed, calls, h1, h3, h2, by omega, h4⟩

/-- Witness for C2 with one server, retry budget 1 and an
always-SERVFAIL backend. -/
theorem C2_query_retry_bound_witness :
    ∃ rep server st' failed calls,
      query c2env () ["s"] = some (rep, server, st', failed, calls) ∧
      failed.length ≤ c2env.retries_max ∧
      calls = failed.length + 1 ∧
      calls ≤ c2env.retries_max + 1 ∧
      (rep.code ≠ Rcode.SERVFAIL ∨ failed.length = c2env.retries_max) :=
  C2_query_retry_bound c2env () ["s"] (fun _ _ h => h) (by simp)

theorem suffix_len_iff (d q : List Char) (c : Char) :
    (List.isSuffixOf (c :: d) q = true ∧ d.length + 2 ≤ q.length) ↔
      ∃ p, p ≠ [] ∧ q = p ++ c :: d := by
  simp only [List.isSuffixOf_iff_suffix]
  constructor
  · rintro ⟨⟨t, ht⟩, hlen⟩
    refine ⟨t, ?_, ht.symm⟩
    intro he
    subst he
    rw [← ht] at hlen
    simp at hlen
  · rintro ⟨p, hp, rfl⟩
    refine ⟨⟨p, rfl⟩, ?_⟩
    have hpos : 0 < p.length := List.length_pos.mpr hp
    simp only [List.length_append, List.length_cons]
    omega

theorem patMatchOne_iff (d q : List Char) :
    patMatchOne d q = true ↔
      (q = d ∨ q = d ++ ['.'] ∨
       (∃ p, p ≠ [] ∧ q = p ++ '.' :: d) ∨
       (∃ p, p ≠ [] ∧ q = p ++ '.' :: (d ++ ['.']))) := by
  have h3 := suffix_len_iff d q '.'
  have h4 := suffix_len_iff (d ++ ['.']) q '.'
  unfold patMatchOne
  simp only [Bool.or_eq_true, Bool.and_eq_true, beq_iff_eq, decide_eq_true_eq,
    or_assoc]
  constructor
  · rintro (h | h | ⟨hs, hl⟩ | ⟨hs, hl⟩)
    · exact Or.inl h
    · exact Or.inr (Or.inl h)
    · exact Or.inr (Or.inr (Or.inl (h3.mp ⟨hs, hl⟩)))
    · refine Or.inr (Or.inr (Or.inr (h4.mp ⟨hs, ?_⟩)))
      simp only [List.length_append, List.length_singleton]
      omega
  · rintro (h | h | hp | hp)
    · exact Or.inl h
    · exact Or.inr (Or.inl h)
    · exact Or.inr (Or.inr (Or.inl (h3.mpr hp)))
    · have hq := h4.mpr hp
      refine Or.inr (Or.inr (Or.inr ⟨hq.1, ?_⟩))
      have hlen := hq.2
      simp only [List.length_append, List.length_singleton] at hlen
      omega

theorem find?_append_first {α : Type} (p : α → Bool) :
    ∀ (l1 : List α) (r : α) (l2 : List α),
      (∀ x ∈ l1, p x = false) → p r = true →
      (l1 ++ r :: l2).find? p = some r := by
  intro l1
  induction l1 with
  | nil =>
    intro r l2 _ hr
    simpa using List.find?_cons_of_pos l2 hr
  | cons a as ih =>
    intro r l2 hall hr
    have ha : ¬ p a = true := by simp [hall a (List.mem_cons_self a as)]
    rw [List.cons_append, List.find?_cons_of_neg _ ha]
    exact ih r l2 (fun x hx => hall x (List.mem_cons_of_mem a hx)) hr

/-- C7 counterexample: the claim's matching condition ("qname equals the
domain or ends with '.' followed by the domain") holds for the qname
`.example.com` against the rule domain `example.com`, but the rule's
compiled pattern `^(.+\.)?(example\.com)\.?$` requires at least one
character before that dot (`.+` is nonempty), so `matches` is false. -/
theorem C7_counterexample :
    specMatchOne (pyLower "example.com") (pyLower ".example.com") = true ∧
    c7ruleA.matches ".example.com" = false := by decide

set_option maxHeartbeats 1000000 in
/-- C7 amended: `select` returns the servers and tag of the first rule of
the sorted rule list whose `matches(qname)` holds, and the config default
with tag DFLT when no rule matches; the rules are sorted with longer
(more specific) domains first; `matches(qname)` is case-insensitive and
holds iff the lowercased qname equals the rule's domain, optionally with
one trailing dot, or ends with `.domain` (optional trailing dot) WITH AT
LEAST ONE CHARACTER before that dot — unless the same condition holds for
some element of `exclude`; plus the spec's routing scenario. -/
theorem C7_select_first_matching_rule :
    (∀ (r : DomainRule) (q : String), r.matches q = true ↔
      (patMatchOne (pyLower r.domain) (pyLower q) = true ∧
       ∀ e ∈ r.exclude, patMatchOne (pyLower e) (pyLower q) = false)) ∧
    (∀ d q : List Char, patMatchOne d q = true ↔
      (q = d ∨ q = d ++ ['.'] ∨
       (∃ p, p ≠ [] ∧ q = p ++ '.' :: d) ∨
       (∃ p, p ≠ [] ∧ q = p ++ '.' :: (d ++ ['.'])))) ∧
    (∀ (servers : List Server) (rules : List DomainRule),
      ((mkConfig servers rules).rules).Pairwise
        (fun r1 r2 => r2.domain.length ≤ r1.domain.length)) ∧
    (∀ (cfg : ResolverConfig) (q : String) (l1 : List DomainRule)
        (r : DomainRule) (l2 : List DomainRule),
      cfg.rules = l1 ++ r :: l2 →
      (∀ r' ∈ l1, r'.matches q = false) →
      r.matches q = true →
      cfg.select q = (r.servers, r.tag)) ∧
    (∀ (cfg : ResolverConfig) (q : String),
      (∀ r ∈ cfg.rules, r.matches q = false) →
      cfg.select q = (cfg.servers, some "DFLT")) ∧
    (c7config.select "bar.foo.example.com" = (["B"], none) ∧
     c7config.select "foo.example.com" = (["B"], none) ∧
     c7config.select "baz.example.com" = (["A"], none) ∧
     c7config.select "other.net" = (["D"], some "DFLT")) := by
  refine ⟨?_, patMatchOne_iff, ?_, ?_, ?_, by decide⟩
  · intro r q
    simp only [DomainRule.matches, Bool.and_eq_true, Bool.not_eq_true',
      List.any_eq_false, Bool.not_eq_true]
  · intro servers rules
    haveI : IsTotal DomainRule
        (fun r1 r2 => r2.domain.length ≤ r1.domain.length) :=
      ⟨fun a b => Nat.le_total b.domain.length a.domain.length⟩
    haveI : IsTrans DomainRule
        (fun r1 r2 => r2.domain.length ≤ r1.domain.length) :=
      ⟨fun _ _ _ h1 h2 => le_trans h2 h1⟩
    exact List.sorted_insertionSort _ rules
  · intro cfg q l1 r l2 hsplit hall hr
    unfold ResolverConfig.select
    rw [hsplit, find?_append_first _ l1 r l2 hall hr]
  · intro cfg q hall
    unfold ResolverConfig.select
    rw [List.find?_eq_none.mpr fun x hx => by simp [hall x hx]]

/-- Witness for C7 at the scenario config: the sorted rule list begins
with the more specific rule foo.example.com, which matches the qname
`foo.example.com`, so select returns its servers and tag. -/
theorem C7_select_first_matching_rule_witness :
    c7config.select "foo.example.com" = (c7ruleB.servers, c7ruleB.tag) :=
  C7_select_first_matching_rule.2.2.2.1 c7config "foo.example.com" []
    c7ruleB [c7ruleA] (by decide) (by simp) (by decide)

theorem dictHas_iff {α : Type} (k : Server) (l : List (Server × α)) :
    dictHas k l = true ↔ k ∈ dictKeys l := by
  unfold dictHas
  rw [Option.isSome_iff_ne_none, ne_eq, dictGet_eq_none_iff, not_not]

theorem dictKeys_mapVal {α β : Type} (f : α → β) (l : List (Server × α)) :
    dictKeys (l.map fun p => (p.1, f p.2)) = dictKeys l := by
  unfold dictKeys
  rw [List.map_map]
  rfl

theorem dictGet_insertionSort {α : Type} (r : Server × α → Server × α → Prop)
    [DecidableRel r] {l : List (Server × α)} (hnd : (dictKeys l).Nodup)
    (k : Server) : dictGet k (List.insertionSort r l) = dictGet k l := by
  have hperm := List.perm_insertionSort r l
  have hnd' : (dictKeys (List.insertionSort r l)).Nodup :=
    ((dictKeys_perm hperm).nodup_iff).mpr hnd
  exact dictGet_perm hperm hnd' k

theorem dictGet_sortMap {α β : Type} (f : α → β)
    (r : Server × β → Server × β → Prop) [DecidableRel r]
    {l : List (Server × α)} (hnd : (dictKeys l).Nodup) (k : Server) :
    dictGet k (List.insertionSort r (l.map fun p => (p.1, f p.2))) =
      (dictGet k l).map f := by
  have hnd2 : (dictKeys (l.map fun p => (p.1, f p.2))).Nodup := by
    rw [dictKeys_mapVal]
    exact hnd
  rw [dictGet_insertionSort r hnd2, dictGet_mapVal]

theorem dictKeys_sortMap_perm {α β : Type} (f : α → β)
    (r : Server × β → Server × β → Prop) [DecidableRel r]
    (l : List (Server × α)) :
    (dictKeys (List.insertionSort r (l.map fun p => (p.1, f p.2)))).Perm
      (dictKeys l) :=
  (dictKeys_perm (List.perm_insertionSort r _)).trans
    (List.Perm.of_eq (dictKeys_mapVal f l))

theorem ARStatsDump.dump_validate (d : ARStatsDump) : (d.validate).dump = d := rfl

theorem ARStats.dump_setParams (a : ARStats) (p : AR1Params) :
    ARStats.dump { a with params := p } = a.dump := rfl

theorem BmodState.add_of_present {st : BmodState} {k : Server}
    (h1 : dictHas k st.SM = true) (h2 : dictHas k st.SR = true)
    (h3 : dictHas k st.SRM = true) : st.add k = st := by
  unfold BmodState.add BindState.add BaseState.add
  simp [h1, h2, h3]

theorem bmod_foldl_add (servers : List Server) : ∀ st : BmodState,
    (∀ k ∈ servers, dictHas k st.SM = true ∧ dictHas k st.SR = true ∧
      dictHas k st.SRM = true) →
    servers.foldl BmodState.add st = st := by
  induction servers with
  | nil => intro st _; rfl
  | cons s rest ih =>
    intro st hall
    obtain ⟨h1, h2, h3⟩ := hall s (List.mem_cons_self s rest)
    rw [List.foldl_cons, BmodState.add_of_present h1 h2 h3]
    exact ih st fun k hk => hall k (List.mem_cons_of_mem s hk)

theorem ar1_add_props {st : AR1State} {k0 : Server}
    (h1 : dictHas k0 st.SM = true) (h2 : dictHas k0 st.SR = true)
    (h3 : dictHas k0 st.SAR = true) :
    (st.add k0).count = st.count ∧ (st.add k0).mean = st.mean ∧
    (st.add k0).SM = st.SM ∧ (st.add k0).SR = st.SR ∧
    (st.add k0).params = st.params ∧
    (∀ k, (dictGet k (st.add k0).SAR).map ARStats.dump =
      (dictGet k st.SAR).map ARStats.dump) ∧
    dictKeys (st.add k0).SAR = dictKeys st.SAR := by
  cases hg : dictGet k0 st.SAR with
  | none =>
    rw [dictHas_iff] at h3
    rw [dictGet_eq_none_iff] at hg
    exact absurd h3 hg
  | some ARi =>
    have hadd : st.add k0 =
        { st with SAR := dictSet k0 { ARi with params := st.params } st.SAR } := by
      unfold AR1State.add
      rw [hg]
      simp [h1, h2]
    rw [hadd]
    refine ⟨rfl, rfl, rfl, rfl, rfl, ?_, ?_⟩
    · intro k
      by_cases hk : k = k0
      · subst hk
        rw [dictGet_dictSet_self, hg, Option.map_some', Option.map_some',
          ARStats.dump_setParams]
      · rw [dictGet_dictSet_ne hk]
    · have hmem : k0 ∈ dictKeys st.SAR := (dictHas_iff k0 st.SAR).mp h3
      exact dictKeys_dictSet_of_mem hmem _

theorem ar1_foldl_add (servers : List Server) : ∀ st : AR1State,
    (∀ k ∈ servers, dictHas k st.SM = true ∧ dictHas k st.SR = true ∧
      dictHas k st.SAR = true) →
    (servers.foldl AR1State.add st).count = st.count ∧
    (servers.foldl AR1State.add st).mean = st.mean ∧
    (servers.foldl AR1State.add st).SM = st.SM ∧
    (servers.foldl AR1State.add st).SR = st.SR ∧
    (servers.foldl AR1State.add st).params = st.params ∧
    (∀ k, (dictGet k (servers.foldl AR1State.add st).SAR).map ARStats.dump =
      (dictGet k st.SAR).map ARStats.dump) ∧
    dictKeys (servers.foldl AR1State.add st).SAR = dictKeys st.SAR := by
  induction servers with
  | nil =>
    intro st _
    exact ⟨rfl, rfl, rfl, rfl, rfl, fun k => rfl, rfl⟩
  | cons s rest ih =>
    intro st hall
    obtain ⟨h1, h2, h3⟩ := hall s (List.mem_cons_self s rest)
    obtain ⟨a1, a2, a3, a4, a5, a6, a7⟩ := ar1_add_props h1 h2 h3
    have hall' : ∀ k ∈ rest, dictHas k (st.add s).SM = true ∧
        dictHas k (st.add s).SR = true ∧ dictHas k (st.add s).SAR = true := by
      intro k hk
      obtain ⟨b1, b2, b3⟩ := hall k (List.mem_cons_of_mem s hk)
      refine ⟨by rw [a3]; exact b1, by rw [a4]; exact b2, ?_⟩
      rw [dictHas_iff, a7, ← dictHas_iff]
      exact b3
    obtain ⟨c1, c2, c3, c4, c5, c6, c7⟩ := ih (st.add s) hall'
    rw [List.foldl_cons]
    refine ⟨c1.trans a1, c2.trans a2, c3.trans a3, c4.trans a4, c5.trans a5,
      fun k => (c6 k).trans (a6 k), c7.trans a7⟩

theorem dump_roundtrip_map (o : Option ARStats) :
    (o.map fun a => ((ARStats.dump a).validate)).map ARStats.dump =
      o.map ARStats.dump := by
  cases o <;> rfl

theorem mapdump_rebind (l : List (Server × ARStats)) (p0 : AR1Params) (k : Server) :
    (dictGet k (l.map fun p => (p.1, { p.2 with params := p0 }))).map ARStats.dump
      = (dictGet k l).map ARStats.dump := by
  have e := dictGet_mapVal (fun a : ARStats => { a with params := p0 }) k l
  exact (congrArg (Option.map ARStats.dump) e).trans (by cases dictGet k l <;> rfl)

theorem ar1_validate_dump_facts (s : AR1State)
    (hSM : (dictKeys s.SM).Nodup) (hSAR : (dictKeys s.SAR).Nodup) :
    (AR1Dump.validate s.dump).count = s.count ∧
    (AR1Dump.validate s.dump).mean = s.mean ∧
    (∀ k, dictGet k (AR1Dump.validate s.dump).SM = dictGet k s.SM) ∧
    ((dictKeys s.SR).Nodup →
      ∀ k, dictGet k (AR1Dump.validate s.dump).SR = dictGet k s.SR) ∧
    (∀ k, dictGet k (AR1Dump.validate s.dump).SAR =
      (dictGet k s.SAR).map fun a => (ARStats.dump a).validate) ∧
    (dictKeys (AR1Dump.validate s.dump).SM).Perm (dictKeys s.SM) ∧
    (dictKeys (AR1Dump.validate s.dump).SR).Perm (dictKeys s.SR) ∧
    (dictKeys (AR1Dump.validate s.dump).SAR).Perm (dictKeys s.SAR) := by
  refine ⟨rfl, rfl, ?_, ?_, ?_, ?_, ?_, ?_⟩
  · intro k
    exact dictGet_insertionSort (fun p q => p.2.mean ≤ q.2.mean) hSM k
  · intro hSR k
    exact dictGet_insertionSort (fun p q => p.2 ≤ q.2) hSR k
  · intro k
    have e1 := dictGet_mapVal (fun d : ARStatsDump => d.validate) k
      (List.insertionSort (fun p q => p.2.P ≤ q.2.P)
        (s.SAR.map fun p => (p.1, p.2.dump)))
    have e2 := dictGet_sortMap (fun a : ARStats => a.dump)
      (fun p q => p.2.P ≤ q.2.P) hSAR k
    exact e1.trans (by rw [e2, Option.map_map]; rfl)
  · exact dictKeys_perm (List.perm_insertionSort _ _)
  · exact dictKeys_perm (List.perm_insertionSort _ _)
  · have e3 : dictKeys (AR1Dump.validate s.dump).SAR =
        dictKeys (List.insertionSort (fun p q => p.2.P ≤ q.2.P)
          (s.SAR.map fun p => (p.1, p.2.dump))) :=
      dictKeys_mapVal _ _
    rw [e3]
    exact dictKeys_sortMap_perm _ _ _

theorem bmod_validate_dump_facts (s : BmodState)
    (hSM : (dictKeys s.SM).Nodup) (hSR : (dictKeys s.SR).Nodup) :
    (BmodDump.validate s.dump).count = s.count ∧
    (BmodDump.validate s.dump).mean = s.mean ∧
    (∀ k, dictGet k (BmodDump.validate s.dump).SM = dictGet k s.SM) ∧
    (∀ k, dictGet k (BmodDump.validate s.dump).SR = dictGet k s.SR) ∧
    (BmodDump.validate s.dump).SRM = s.SRM ∧
    (dictKeys (BmodDump.validate s.dump).SM).Perm (dictKeys s.SM) ∧
    (dictKeys (BmodDump.validate s.dump).SR).Perm (dictKeys s.SR) := by
  refine ⟨rfl, rfl, ?_, ?_, rfl, ?_, ?_⟩
  · intro k
    exact dictGet_insertionSort (fun p q => p.2.mean ≤ q.2.mean) hSM k
  · intro k
    exact dictGet_insertionSort (fun p q => p.2 ≤ q.2) hSR k
  · exact dictKeys_perm (List.perm_insertionSort _ _)
  · exact dictKeys_perm (List.perm_insertionSort _ _)

theorem isSome_of_map_dump_eq (o1 o2 : Option ARStats)
    (h : o1.map ARStats.dump = o2.map ARStats.dump) : o1.isSome = o2.isSome := by
  cases o1 <;> cases o2 <;> simp_all

theorem ar1_load_facts (st : AR1State)
    (hSM : (dictKeys st.SM).Nodup) (hSR : (dictKeys st.SR).Nodup)
    (hSAR : (dictKeys st.SAR).Nodup)
    (hpres : ∀ k ∈ dictKeys st.SM,
      dictHas k st.SR = true ∧ dictHas k st.SAR = true) :
    (st.load st.dump).count = st.count ∧
    (st.load st.dump).mean = st.mean ∧
    (∀ k, dictGet k (st.load st.dump).SM = dictGet k st.SM) ∧
    (∀ k, dictGet k (st.load st.dump).SR = dictGet k st.SR) ∧
    (∀ k, (dictGet k (st.load st.dump).SAR).map ARStats.dump =
      (dictGet k st.SAR).map ARStats.dump) ∧
    (∀ k, dictHas k (st.load st.dump).SM = dictHas k st.SM ∧
      dictHas k (st.load st.dump).SR = dictHas k st.SR ∧
      dictHas k (st.load st.dump).SAR = dictHas k st.SAR) := by
  obtain ⟨v1c, v1m, v1SM, v1SRf, v1SAR, v1kSM, v1kSR, v1kSAR⟩ :=
    ar1_validate_dump_facts st hSM hSAR
  have hSM1 : (dictKeys (AR1Dump.validate st.dump).SM).Nodup :=
    v1kSM.nodup_iff.mpr hSM
  have hSR1 : (dictKeys (AR1Dump.validate st.dump).SR).Nodup :=
    v1kSR.nodup_iff.mpr hSR
  have hSAR1 : (dictKeys (AR1Dump.validate st.dump).SAR).Nodup :=
    v1kSAR.nodup_iff.mpr hSAR
  obtain ⟨v2c, v2m, v2SM, v2SRf, v2SAR, v2kSM, v2kSR, v2kSAR⟩ :=
    ar1_validate_dump_facts (AR1Dump.validate st.dump) hSM1 hSAR1
  have oc : (AR1Dump.validate (AR1Dump.validate st.dump).dump).count = st.count :=
    v2c.trans v1c
  have om : (AR1Dump.validate (AR1Dump.validate st.dump).dump).mean = st.mean :=
    v2m.trans v1m
  have oSM : ∀ k,
      dictGet k (AR1Dump.validate (AR1Dump.validate st.dump).dump).SM =
        dictGet k st.SM :=
    fun k => (v2SM k).trans (v1SM k)
  have oSR : ∀ k,
      dictGet k (AR1Dump.validate (AR1Dump.validate st.dump).dump).SR =
        dictGet k st.SR :=
    fun k => (v2SRf hSR1 k).trans (v1SRf hSR k)
  have oSAR : ∀ k,
      (dictGet k (AR1Dump.validate (AR1Dump.validate st.dump).dump).SAR).map
          ARStats.dump =
        (dictGet k st.SAR).map ARStats.dump := by
    intro k
    rw [v2SAR k, v1SAR k]
    cases dictGet k st.SAR <;> rfl
  have okSM := v2kSM.trans v1kSM
  have okSR := v2kSR.trans v1kSR
  have okSAR := v2kSAR.trans v1kSAR
  have hall : ∀ k ∈ dictKeys st.SM,
      dictHas k (AR1Dump.validate (AR1Dump.validate st.dump).dump).SM = true ∧
      dictHas k (AR1Dump.validate (AR1Dump.validate st.dump).dump).SR = true ∧
      dictHas k (AR1Dump.validate (AR1Dump.validate st.dump).dump).SAR = true := by
    intro k hk
    obtain ⟨hr, ha⟩ := hpres k hk
    exact ⟨(dictHas_iff _ _).mpr (okSM.mem_iff.mpr hk),
      (dictHas_iff _ _).mpr (okSR.mem_iff.mpr ((dictHas_iff _ _).mp hr)),
      (dictHas_iff _ _).mpr (okSAR.mem_iff.mpr ((dictHas_iff _ _).mp ha))⟩
  obtain ⟨c1, c2, c3, c4, c5, c6, c7⟩ := ar1_foldl_add (dictKeys st.SM)
    { st with
      count := (AR1Dump.validate (AR1Dump.validate st.dump).dump).count
      mean := (AR1Dump.validate (AR1Dump.validate st.dump).dump).mean
      SM := (AR1Dump.validate (AR1Dump.validate st.dump).dump).SM
      SR := (AR1Dump.validate (AR1Dump.validate st.dump).dump).SR
      SAR := (AR1Dump.validate (AR1Dump.validate st.dump).dump).SAR }
    (fun k hk => hall k hk)
  have h3SM : ∀ k, dictGet k (st.load st.dump).SM = dictGet k st.SM :=
    fun k => (congrArg (dictGet k) c3).trans (oSM k)
  have h4SR : ∀ k, dictGet k (st.load st.dump).SR = dictGet k st.SR :=
    fun k => (congrArg (dictGet k) c4).trans (oSR k)
  have h5SAR : ∀ k, (dictGet k (st.load st.dump).SAR).map ARStats.dump =
      (dictGet k st.SAR).map ARStats.dump :=
    fun k => (mapdump_rebind _ _ k).trans ((c6 k).trans (oSAR k))
  refine ⟨c1.trans oc, c2.trans om, h3SM, h4SR, h5SAR, ?_⟩
  intro k
  exact ⟨congrArg Option.isSome (h3SM k), congrArg Option.isSome (h4SR k),
    isSome_of_map_dump_eq _ _ (h5SAR k)⟩

theorem bmod_load_facts (st : BmodState)
    (hSM : (dictKeys st.SM).Nodup) (hSR : (dictKeys st.SR).Nodup)
    (hpres : ∀ k ∈ dictKeys st.SM,
      dictHas k st.SR = true ∧ dictHas k st.SRM = true) :
    (st.load st.dump).count = st.count ∧
    (st.load st.dump).mean = st.mean ∧
    (∀ k, dictGet k (st.load st.dump).SM = dictGet k st.SM) ∧
    (∀ k, dictGet k (st.load st.dump).SR = dictGet k st.SR) ∧
    (st.load st.dump).SRM = st.SRM ∧
    (∀ k, dictHas k (st.load st.dump).SM = dictHas k st.SM ∧
      dictHas k (st.load st.dump).SR = dictHas k st.SR ∧
      dictHas k (st.load st.dump).SRM = dictHas k st.SRM) := by
  obtain ⟨v1c, v1m, v1SM, v1SR, v1SRM, v1kSM, v1kSR⟩ :=
    bmod_validate_dump_facts st hSM hSR
  have hSM1 : (dictKeys (BmodDump.validate st.dump).SM).Nodup :=
    v1kSM.nodup_iff.mpr hSM
  have hSR1 : (dictKeys (BmodDump.validate st.dump).SR).Nodup :=
    v1kSR.nodup_iff.mpr hSR
  obtain ⟨v2c, v2m, v2SM, v2SR, v2SRM, v2kSM, v2kSR⟩ :=
    bmod_validate_dump_facts (BmodDump.validate st.dump) hSM1 hSR1
  have oc : (BmodDump.validate (BmodDump.validate st.dump).dump).count = st.count :=
    v2c.trans v1c
  have om : (BmodDump.validate (BmodDump.validate st.dump).dump).mean = st.mean :=
    v2m.trans v1m
  have oSM : ∀ k,
      dictGet k (BmodDump.validate (BmodDump.validate st.dump).dump).SM =
        dictGet k st.SM :=
    fun k => (v2SM k).trans (v1SM k)
  have oSR : ∀ k,
      dictGet k (BmodDump.validate (BmodDump.validate st.dump).dump).SR =
        dictGet k st.SR :=
    fun k => (v2SR k).trans (v1SR k)
  have oSRM : (BmodDump.validate (BmodDump.validate st.dump).dump).SRM = st.SRM :=
    v2SRM.trans v1SRM
  have okSM := v2kSM.trans v1kSM
  have okSR := v2kSR.trans v1kSR
  have hall : ∀ k ∈ dictKeys st.SM,
      dictHas k (BmodDump.validate (BmodDump.validate st.dump).dump).SM = true ∧
      dictHas k (BmodDump.validate (BmodDump.validate st.dump).dump).SR = true ∧
      dictHas k (BmodDump.validate (BmodDump.validate st.dump).dump).SRM = true := by
    intro k hk
    obtain ⟨hr, hm⟩ := hpres k hk
    refine ⟨(dictHas_iff _ _).mpr (okSM.mem_iff.mpr hk),
      (dictHas_iff _ _).mpr (okSR.mem_iff.mpr ((dictHas_iff _ _).mp hr)), ?_⟩
    unfold dictHas
    rw [oSRM]
    exact hm
  have hfold := bmod_foldl_add (dictKeys st.SM)
    { st with
      toBindState :=
        { toBaseState :=
            { toRunningMean :=
                { count := (BmodDump.validate (BmodDump.validate st.dump).dump).count
                  mean := (BmodDump.validate (BmodDump.validate st.dump).dump).mean }
              SM := (BmodDump.validate (BmodDump.validate st.dump).dump).SM }
          SR := (BmodDump.validate (BmodDump.validate st.dump).dump).SR
          params := st.params }
      SRM := (BmodDump.validate (BmodDump.validate st.dump).dump).SRM }
    (fun k hk => hall k hk)
  have h3SM : ∀ k, dictGet k (st.load st.dump).SM = dictGet k st.SM :=
    fun k =>
      (congrArg (dictGet k) (congrArg (fun s : BmodState => s.SM) hfold)).trans
        (oSM k)
  have h4SR : ∀ k, dictGet k (st.load st.dump).SR = dictGet k st.SR :=
    fun k =>
      (congrArg (dictGet k) (congrArg (fun s : BmodState => s.SR) hfold)).trans
        (oSR k)
  have h5SRM : (st.load st.dump).SRM = st.SRM :=
    (congrArg (fun s : BmodState => s.SRM) hfold).trans oSRM
  refine ⟨(congrArg (fun s : BmodState => s.count) hfold).trans oc,
    (congrArg (fun s : BmodState => s.mean) hfold).trans om,
    h3SM, h4SR, h5SRM, ?_⟩
  intro k
  exact ⟨congrArg Option.isSome (h3SM k), congrArg Option.isSome (h4SR k),
    congrArg (fun l => (dictGet k l).isSome) h5SRM⟩

/-- **C9.** `state.load(state.model_dump())` is a no-op on all numeric
fields: for every state whose per-server dicts have distinct keys and
whose `SM` keys are present in the other per-server dicts (as holds for
every state built by `add`/`observe`), the reloaded AR-1 state keeps the
global `count` and `mean` and every per-server entry of `SM`, `SR` and
`SAR` (the latter compared on its dumped numeric fields, since `load`
deliberately rebinds the non-numeric `params`), and the reloaded BMOD
state keeps `count`, `mean`, `SM`, `SR` and `SRM`; in both cases every
server previously present in a per-server map is still present after the
load. -/
theorem C9_load_dump_idempotent :
    (∀ st : AR1State,
      (dictKeys st.SM).Nodup → (dictKeys st.SR).Nodup →
      (dictKeys st.SAR).Nodup →
      (∀ k ∈ dictKeys st.SM,
        dictHas k st.SR = true ∧ dictHas k st.SAR = true) →
      (st.load st.dump).count = st.count ∧
      (st.load st.dump).mean = st.mean ∧
      (∀ k, dictGet k (st.load st.dump).SM = dictGet k st.SM) ∧
      (∀ k, dictGet k (st.load st.dump).SR = dictGet k st.SR) ∧
      (∀ k, (dictGet k (st.load st.dump).SAR).map ARStats.dump =
        (dictGet k st.SAR).map ARStats.dump) ∧
      (∀ k, dictHas k (st.load st.dump).SM = dictHas k st.SM ∧
        dictHas k (st.load st.dump).SR = dictHas k st.SR ∧
        dictHas k (st.load st.dump).SAR = dictHas k st.SAR)) ∧
    (∀ st : BmodState,
      (dictKeys st.SM).Nodup → (dictKeys st.SR).Nodup →
      (∀ k ∈ dictKeys st.SM,
        dictHas k st.SR = true ∧ dictHas k st.SRM = true) →
      (st.load st.dump).count = st.count ∧
      (st.load st.dump).mean = st.mean ∧
      (∀ k, dictGet k (st.load st.dump).SM = dictGet k st.SM) ∧
      (∀ k, dictGet k (st.load st.dump).SR = dictGet k st.SR) ∧
      (st.load st.dump).SRM = st.SRM ∧
      (∀ k, dictHas k (st.load st.dump).SM = dictHas k st.SM ∧
        dictHas k (st.load st.dump).SR = dictHas k st.SR ∧
        dictHas k (st.load st.dump).SRM = dictHas k st.SRM)) :=
  ⟨fun st h1 h2 h3 h4 => ar1_load_facts st h1 h2 h3 h4,
   fun st h1 h2 h3 => bmod_load_facts st h1 h2 h3⟩

/-- Witness for C9: the two-server states of the earlier scenarios reload
to themselves — the AR-1 state `c4state0` keeps its global count, its `SR`
entries and its dumped `SAR` entries, and the BMOD state `c3state0` keeps
its `SRM` list. -/
theorem C9_load_dump_idempotent_witness :
    (c4state0.load c4state0.dump).count = c4state0.count ∧
    (∀ k, dictGet k (c4state0.load c4state0.dump).SR = dictGet k c4state0.SR) ∧
    (∀ k, (dictGet k (c4state0.load c4state0.dump).SAR).map ARStats.dump =
      (dictGet k c4state0.SAR).map ARStats.dump) ∧
    (c3state0.load c3state0.dump).SRM = c3state0.SRM :=
  ⟨(C9_load_dump_idempotent.1 c4state0 (by decide) (by decide) (by decide)
      (by decide)).1,
   (C9_load_dump_idempotent.1 c4state0 (by decide) (by decide) (by decide)
      (by decide)).2.2.2.1,
   (C9_load_dump_idempotent.1 c4state0 (by decide) (by decide) (by decide)
      (by decide)).2.2.2.2.1,
   (C9_load_dump_idempotent.2 c3state0 (by decide) (by decide)
      (by decide)).2.2.2.2.1⟩
